import Mathlib

/-!
nio: control-channel handshake (src/nio.c)

A shallow embedding of the control protocol of `nio.c`: the packed
`struct nio_cmd` as a 24-byte memory image, the byte-order conversions, and
the bodies of the `ctrl_server` and `ctrl_client` loops as functions on an
explicit record of their local variables.  Everything the loops obtain from
the operating system in one pass (the outcome of `select`, the values read
from the volatile `should_stop`, the return value of `sendto`/`send`, the
datagram handed out by `recvfrom`/`recv`) is an explicit input record.
`create_socket` is embedded with what `getaddrinfo`, `socket`, `bind` and
`connect` return given per candidate.
-/

namespace Nio

/-! ## Byte order and the message buffer -/

/-- Byte order of the host the program is compiled for. -/
inductive Endian
  | little
  | big
deriving DecidableEq, Repr

/-- A region of memory, one natural number below 256 per byte. -/
abbrev Buf := List Nat

/-- `#define CMD_START 1` -/
def CMD_START : Nat := 1
/-- `#define CMD_ACK 2` -/
def CMD_ACK : Nat := 2
/-- `#define CMD_STOP 3` -/
def CMD_STOP : Nat := 3
/-- `#define CMD_DATA 4` -/
def CMD_DATA : Nat := 4

/-- The four bytes of a 32-bit value, most significant first. -/
def be_bytes (x : Nat) : Buf :=
  [x / 16777216 % 256, x / 65536 % 256, x / 256 % 256, x % 256]

/-- Swap the four bytes of a 32-bit value. -/
def bswap32 (x : Nat) : Nat :=
  (x % 256) * 16777216 + (x / 256 % 256) * 65536 + (x / 65536 % 256) * 256
    + x / 16777216 % 256

/-- `htonl` of the C library: the identity on a big-endian host, a byte swap
on a little-endian one. -/
def htonl (e : Endian) (x : Nat) : Nat :=
  match e with
  | .big => x % 4294967296
  | .little => bswap32 x

/-- `ntohl` of the C library: the same conversion as `htonl`. -/
def ntohl (e : Endian) (x : Nat) : Nat :=
  match e with
  | .big => x % 4294967296
  | .little => bswap32 x

/-- Memory image of a `uint32_t` object holding `v`, in host byte order. -/
def store32 (e : Endian) (v : Nat) : Buf :=
  match e with
  | .big => be_bytes v
  | .little => [v % 256, v / 256 % 256, v / 65536 % 256, v / 16777216 % 256]

/-- Value of the `uint32_t` object whose memory image starts the buffer
(missing bytes read as zero). -/
def load32 (e : Endian) (b : Buf) : Nat :=
  match e with
  | .big =>
    b.getD 0 0 * 16777216 + b.getD 1 0 * 65536 + b.getD 2 0 * 256 + b.getD 3 0
  | .little =>
    b.getD 0 0 + b.getD 1 0 * 256 + b.getD 2 0 * 65536 + b.getD 3 0 * 16777216

/-- `sizeof(struct nio_cmd)`: six packed `uint32_t` fields. -/
def sizeof_nio_cmd : Nat := 6 * 4

/-- Offsets of the fields of the packed `struct nio_cmd`. -/
def off_cmd : Nat := 0
/-- Offset of `threads`. -/
def off_threads : Nat := 4
/-- Offset of `seq_lo`. -/
def off_seq_lo : Nat := 8
/-- Offset of `seq_hi`. -/
def off_seq_hi : Nat := 12
/-- Offset of `recv_lo`. -/
def off_recv_lo : Nat := 16
/-- Offset of `recv_hi`. -/
def off_recv_hi : Nat := 20

/-- `memset(&cmd, 0, sizeof(cmd))`. -/
def memset0 : Buf := List.replicate sizeof_nio_cmd 0

/-- Assignment `m.field = v` to the `uint32_t` field at offset `off`. -/
def set_field (e : Endian) (m : Buf) (off v : Nat) : Buf :=
  m.take off ++ store32 e v ++ m.drop (off + 4)

/-- Read of the `uint32_t` field at offset `off`. -/
def get_field (e : Endian) (m : Buf) (off : Nat) : Nat :=
  load32 e (m.drop off)

/-- Conversion of an `int` to `uint32_t` (as in `htonl(threads)`). -/
def to_uint32 (i : Int) : Nat := (i % 4294967296).toNat

/-- `enum states`. -/
inductive states
  | STATE_START
  | STATE_START_SENT
  | STATE_STARTED
  | STATE_DYING
deriving DecidableEq, Repr

open states

/-! ## The environment of one loop pass -/

/-- A socket address as its bytes, read as a number in base 256 with the
first byte least significant: byte `i` of the address is `a / 256 ^ i % 256`.
A source address comes with its length in bytes (16 for `sockaddr_in`, 28
for `sockaddr_in6`). -/
abbrev Addr := Nat

/-- `sizeof(struct sockaddr)`: the size of the variable `remote`, and the
value `r_len` has going into `recvfrom`. -/
def sizeof_sockaddr : Nat := 16

/-- Contents of the 16-byte variable `remote` after `recvfrom` has stored a
source address of `srclen` bytes in it: the first `min srclen 16` bytes of
the address replace the start of the variable, a longer address is cut
short, the bytes of the variable behind a shorter one stay. -/
def store_addr (src : Addr) (srclen : Nat) (old : Addr) : Addr :=
  (src % 256 ^ min srclen sizeof_sockaddr
      + old / 256 ^ min srclen sizeof_sockaddr * 256 ^ min srclen sizeof_sockaddr)
    % 256 ^ sizeof_sockaddr

/-- The destination a call `sendto(..., &remote, r_len)` names: the first
`r_len` bytes of `remote`.  When `r_len` exceeds the size of `remote` the call
reads past the variable and the destination is not given by its contents. -/
def sendto_dest (remote : Addr) (r_len : Nat) : Option Addr :=
  if r_len ≤ sizeof_sockaddr then some (remote % 256 ^ r_len) else none

/-- Outcome of the `select` call: a failure with `errno == EINTR`, any other
failure, or success with the actual readiness of the socket for reading and
for writing. -/
inductive SelectRet
  | eintr
  | error
  | ok (rd wr : Bool)
deriving DecidableEq, Repr

/-- What a `recvfrom`/`recv` call finds: nothing (it returns -1, for instance
with `EAGAIN`), or one datagram with its payload, source address and the
length of that address. -/
inductive RecvEvent
  | fail
  | dgram (payload : Buf) (src : Addr) (srclen : Nat)
deriving DecidableEq, Repr

/-- Return value of `recvfrom`/`recv` with a buffer of `sizeof_nio_cmd` bytes
and flags 0 on a datagram socket: -1 on failure, otherwise the number of bytes
copied, the excess of a longer datagram being dropped. -/
def recv_ret (r : RecvEvent) : Int :=
  match r with
  | .fail => -1
  | .dgram p _ _ => (min p.length sizeof_nio_cmd : Nat)

/-- Contents of the receive buffer after the call: the copied bytes replace
the start of the buffer. -/
def recv_buf (r : RecvEvent) (old : Buf) : Buf :=
  match r with
  | .fail => old
  | .dgram p _ _ =>
    p.take sizeof_nio_cmd ++ old.drop (min p.length sizeof_nio_cmd)

/-- The system calls a loop makes, in program order: `select` with whether
the socket was put into the write set (it always is in the read set), the
sends with the buffer and return value (for `sendto` also the contents of
the address variable and the length passed with it, see `sendto_dest`), and
the receives with their return value. -/
inductive Call
  | select (wr_interest : Bool)
  | sendto (buf : Buf) (remote : Addr) (r_len : Nat) (ret : Int)
  | send (buf : Buf) (ret : Int)
  | recvfrom (ret : Int)
  | recv (ret : Int)
deriving DecidableEq, Repr

/-- How control leaves a loop body: `running` when the next loop test is
reached (end of the body or `continue`), `returned` on `break`, `exited` on
`exit(EXIT_FAILURE)`. -/
inductive Outcome (σ : Type)
  | running (s : σ)
  | returned (s : σ)
  | exited (s : σ)
deriving DecidableEq, Repr

/-- The variables an outcome carries. -/
def Outcome.vars {σ : Type} : Outcome σ → σ
  | .running s => s
  | .returned s => s
  | .exited s => s

/-! ## ctrl_server -/

/-- Local variables of `ctrl_server`, and the calls made so far. -/
structure Server where
  state : states
  cmd : Buf
  recv_cmd : Buf
  remote : Addr
  r_len : Nat
  cmd_write : Bool
  trace : List Call
deriving DecidableEq, Repr

/-- What one pass of the `ctrl_server` loop gets from outside. -/
structure ServerEnv where
  sel : SelectRet
  stop : Bool
  sent : Int
  rcv : RecvEvent
deriving DecidableEq, Repr

/-- Variables on entry to the loop of `ctrl_server` (lines 113-119); `cmd`,
`recv_cmd`, `remote` and `r_len` are not written before the loop, so their
contents are whatever the stack holds. -/
def ctrl_server_init (cmd0 recv0 : Buf) (remote0 : Addr) (r_len0 : Nat) : Server :=
  { state := STATE_START, cmd := cmd0, recv_cmd := recv0, remote := remote0,
    r_len := r_len0, cmd_write := false, trace := [] }

/-- The block under `FD_ISSET(fd, &wfds)` of `ctrl_server` (lines 146-162).
The `sendto` call is recorded with the contents of the variable `remote` and
the value of `r_len` it is given; the destination the call reads from them is
`sendto_dest`, which the contents of `remote` do not give when `r_len` is
larger than the variable. -/
def server_write (sent : Int) (s : Server) : Outcome Server :=
  if s.state = STATE_START then
    let s1 := { s with trace := s.trace ++ [Call.sendto s.cmd s.remote s.r_len sent] }
    if sent ≠ (sizeof_nio_cmd : Int) then
      .exited s1
    else
      .running { s1 with cmd_write := false, state := STATE_STARTED }
  else
    .running s

/-- The block under `FD_ISSET(fd, &rfds)` of `ctrl_server` (lines 164-189).
`recvfrom` is given the 16-byte variable `remote`: it stores the source
address there, cut short when it is longer, and its full length in `r_len`. -/
def server_read (e : Endian) (r : RecvEvent) (s : Server) : Server :=
  let s1 : Server :=
    match r with
    | .fail =>
      { s with r_len := sizeof_sockaddr, trace := s.trace ++ [Call.recvfrom (recv_ret r)] }
    | .dgram _ src srclen =>
      { s with recv_cmd := recv_buf r s.recv_cmd,
               remote := store_addr src srclen s.remote, r_len := srclen,
               trace := s.trace ++ [Call.recvfrom (recv_ret r)] }
  if recv_ret r ≠ (sizeof_nio_cmd : Int) then
    s1
  else if ntohl e (get_field e s1.recv_cmd off_cmd) = CMD_START then
    if s1.state ≠ STATE_START then
      s1
    else
      { s1 with cmd := set_field e memset0 off_cmd (htonl e CMD_ACK), cmd_write := true }
  else if ntohl e (get_field e s1.recv_cmd off_cmd) = CMD_STOP then
    { s1 with state := STATE_DYING }
  else
    s1

/-- One pass through the body of the `while` loop of `ctrl_server`
(lines 122-189). -/
def ctrl_server_body (e : Endian) (env : ServerEnv) (s : Server) : Outcome Server :=
  let wfds := s.cmd_write
  let s1 := { s with trace := s.trace ++ [Call.select wfds] }
  match env.sel with
  | .eintr => .running s1
  | .error => .exited s1
  | .ok rd wr =>
    if env.stop then
      .returned s1
    else
      match (if wfds && wr then server_write env.sent s1 else .running s1) with
      | .running s2 => .running (if rd then server_read e env.rcv s2 else s2)
      | o => o

/-- The `while (state != STATE_DYING)` loop of `ctrl_server`, driven by one
input record per pass; `running` is returned when the inputs are used up
before the loop is left. -/
def ctrl_server_loop (e : Endian) : List ServerEnv → Server → Outcome Server
  | [], s => if s.state = STATE_DYING then .returned s else .running s
  | env :: rest, s =>
    if s.state = STATE_DYING then
      .returned s
    else
      match ctrl_server_body e env s with
      | .running s1 => ctrl_server_loop e rest s1
      | o => o

/-- The protocol-relevant variables of the server: state, pending message,
pending-write flag. -/
def Server.proto (s : Server) : states × Buf × Bool := (s.state, s.cmd, s.cmd_write)

/-! ## ctrl_client -/

/-- Local variables of `ctrl_client`, and the calls made so far. -/
structure Client where
  state : states
  cmd : Buf
  recv_cmd : Buf
  cmd_write : Bool
  trace : List Call
deriving DecidableEq, Repr

/-- What one pass of the `ctrl_client` loop gets from outside: `stop1` is the
value of `should_stop` read before `select` (line 219), `stop2` the value read
after the send (line 246). -/
structure ClientEnv where
  stop1 : Bool
  sel : SelectRet
  sent : Int
  stop2 : Bool
  rcv : RecvEvent
deriving DecidableEq, Repr

/-- Variables on entry to the loop of `ctrl_client` (lines 195-204), for the
value `threads` of the global of that name; `recv_cmd` is not written before
the loop. -/
def ctrl_client_init (e : Endian) (threads : Int) (recv0 : Buf) : Client :=
  { state := STATE_START,
    cmd := set_field e (set_field e memset0 off_cmd (htonl e CMD_START)) off_threads
             (htonl e (to_uint32 threads)),
    recv_cmd := recv0, cmd_write := true, trace := [] }

/-- The `if (should_stop)` block before `select` in `ctrl_client`
(lines 219-223). -/
def client_stop_check (e : Endian) (stop1 : Bool) (s : Client) : Client :=
  if stop1 then
    { s with cmd := set_field e memset0 off_cmd (htonl e CMD_STOP), cmd_write := true }
  else
    s

/-- The block under `FD_ISSET(fd, &wfds)` of `ctrl_client` (lines 234-250). -/
def client_write (sent : Int) (stop2 : Bool) (s : Client) : Outcome Client :=
  let s1 := { s with trace := s.trace ++ [Call.send s.cmd sent] }
  if sent ≠ (sizeof_nio_cmd : Int) then
    .exited s1
  else
    let s2 := if s1.state = STATE_START then { s1 with state := STATE_START_SENT } else s1
    let s3 := if stop2 then { s2 with state := STATE_DYING } else s2
    .running { s3 with cmd_write := false }

/-- The block under `FD_ISSET(fd, &rfds)` of `ctrl_client` (lines 252-279). -/
def client_read (e : Endian) (r : RecvEvent) (s : Client) : Client :=
  let s1 : Client :=
    { s with recv_cmd := recv_buf r s.recv_cmd, trace := s.trace ++ [Call.recv (recv_ret r)] }
  if recv_ret r ≠ (sizeof_nio_cmd : Int) then
    s1
  else if ntohl e (get_field e s1.recv_cmd off_cmd) = CMD_ACK then
    if s1.state = STATE_START_SENT then
      { s1 with state := STATE_STARTED }
    else
      s1
  else if ntohl e (get_field e s1.recv_cmd off_cmd) = CMD_DATA then
    s1
  else
    s1

/-- One pass through the body of the `while` loop of `ctrl_client`
(lines 207-279).  The write set is filled from `cmd_write` (lines 216-217)
before the `should_stop` block runs. -/
def ctrl_client_body (e : Endian) (env : ClientEnv) (s : Client) : Outcome Client :=
  let wfds := s.cmd_write
  let s0 := client_stop_check e env.stop1 s
  let s1 := { s0 with trace := s0.trace ++ [Call.select wfds] }
  match env.sel with
  | .eintr => .running s1
  | .error => .exited s1
  | .ok rd wr =>
    match (if wfds && wr then client_write env.sent env.stop2 s1 else .running s1) with
    | .running s2 => .running (if rd then client_read e env.rcv s2 else s2)
    | o => o

/-- The `while (state != STATE_DYING)` loop of `ctrl_client`, driven by one
input record per pass; `running` is returned when the inputs are used up
before the loop is left. -/
def ctrl_client_loop (e : Endian) : List ClientEnv → Client → Outcome Client
  | [], s => if s.state = STATE_DYING then .returned s else .running s
  | env :: rest, s =>
    if s.state = STATE_DYING then
      .returned s
    else
      match ctrl_client_body e env s with
      | .running s1 => ctrl_client_loop e rest s1
      | o => o

/-- The protocol-relevant variables of the client: state, pending message,
pending-write flag. -/
def Client.proto (s : Client) : states × Buf × Bool := (s.state, s.cmd, s.cmd_write)

/-- The buffers handed to `sendto`/`send` in a sequence of calls, in order. -/
def sent_bufs : List Call → List Buf
  | [] => []
  | .sendto b _ _ _ :: t => b :: sent_bufs t
  | .send b _ :: t => b :: sent_bufs t
  | _ :: t => sent_bufs t

/-- The 24-byte wire image with command `c` and thread count `t`, the other
four fields zero: most significant byte first in both fields. -/
def wire_msg (c t : Nat) : Buf := be_bytes c ++ be_bytes t ++ List.replicate 16 0

/-! ## Derived notions used in the statements -/

/-- The server variables right after the `recvfrom` call returned a datagram. -/
def Server.received (s : Server) (p : Buf) (src : Addr) (l : Nat) : Server :=
  { s with recv_cmd := recv_buf (.dgram p src l) s.recv_cmd,
           remote := store_addr src l s.remote, r_len := l,
           trace := s.trace ++ [Call.recvfrom (recv_ret (.dgram p src l))] }

/-- A received event carries a full-size `STOP`. -/
def is_stop (e : Endian) (r : RecvEvent) : Prop :=
  ∃ q src l, r = .dgram q src l ∧ sizeof_nio_cmd ≤ q.length
    ∧ ntohl e (get_field e q off_cmd) = CMD_STOP

/-- Until the client has sent anything it still holds its first message:
either nothing was sent and the variables are as on entry to the loop, or the
first buffer handed to `send` was `m`. -/
def first_send_is (m : Buf) (s : Client) : Prop :=
  (sent_bufs s.trace = [] ∧ s.state = STATE_START ∧ s.cmd = m ∧ s.cmd_write = true)
    ∨ (sent_bufs s.trace).head? = some m

/-- The client variables right after the `recv` call. -/
def Client.received (s : Client) (r : RecvEvent) : Client :=
  { s with recv_cmd := recv_buf r s.recv_cmd, trace := s.trace ++ [Call.recv (recv_ret r)] }

/-- The values `should_stop` has at the reads of a client run, in program
order: two reads per pass. -/
def stop_reads : List ClientEnv → List Bool
  | [] => []
  | env :: rest => env.stop1 :: env.stop2 :: stop_reads rest

/-- The flag, once set, is never reset: a read that sees it set is followed
only by reads that see it set. -/
def never_reset (flags : List Bool) : Prop :=
  flags.Pairwise (fun a b => a = true → b = true)

/-- The command field of a message buffer decodes to `STOP`. -/
def is_stop_msg (e : Endian) (b : Buf) : Prop :=
  ntohl e (get_field e b off_cmd) = CMD_STOP

/-- No buffer handed to a send so far carries the command `STOP`. -/
def no_stop_sent (e : Endian) (tr : List Call) : Prop :=
  ∀ b ∈ sent_bufs tr, ¬ is_stop_msg e b

/-- In a sequence of calls, no send of any kind follows a `send` of a message
whose command is `STOP`. -/
def no_send_after_stop (e : Endian) : List Call → Prop
  | [] => True
  | .send b _ :: t =>
    if ntohl e (get_field e b off_cmd) = CMD_STOP then sent_bufs t = []
    else no_send_after_stop e t
  | _ :: t => no_send_after_stop e t

/-- A receive returns a full message whose command decodes to `START`: a
datagram of which `recvfrom` copies 24 bytes, the first four being
00 00 00 01. -/
def is_start (e : Endian) (r : RecvEvent) : Prop :=
  ∃ q src l, r = .dgram q src l ∧ sizeof_nio_cmd ≤ q.length
    ∧ ntohl e (get_field e q off_cmd) = CMD_START

/-! ## create_socket -/

/-- `AF_UNSPEC` of the system headers. -/
def AF_UNSPEC : Int := 0
/-- `AF_INET` of the system headers. -/
def AF_INET : Int := 2
/-- `AF_INET6` of the system headers (its value on Linux). -/
def AF_INET6 : Int := 10

/-- One entry of the list `getaddrinfo` returns, together with what the
system calls made for it would do: `sock` is the descriptor `socket` returns
(`none` when it fails), `bind_ok` and `connect_ok` whether `bind` and
`connect` on that descriptor succeed. -/
structure addrinfo where
  ai_family : Int
  sock : Option Nat
  bind_ok : Bool
  connect_ok : Bool
deriving DecidableEq, Repr

/-- Return value of `socket` for a candidate. -/
def socket_ret (rp : addrinfo) : Int :=
  match rp.sock with
  | none => -1
  | some n => (n : Int)

/-- Return value of `bind` for a candidate. -/
def bind_ret (rp : addrinfo) : Int := if rp.bind_ok then 0 else -1

/-- Return value of `connect` for a candidate. -/
def connect_ret (rp : addrinfo) : Int := if rp.connect_ok then 0 else -1

/-- The system calls `create_socket` makes after `getaddrinfo`; `idx` is the
position of the candidate in the result list. -/
inductive SockCall
  | socket (idx : Nat) (ret : Int)
  | bind (fd : Int) (idx : Nat) (ret : Int)
  | connect (fd : Int) (idx : Nat) (ret : Int)
  | close (fd : Int)
  | set_nonblocking (fd : Int)
deriving DecidableEq, Repr

/-- The family the candidates are filtered on (lines 55-60): the hint, or for
`AF_UNSPEC` the outcome of the scan of the result list. -/
def choose_family (af : Int) (results : List addrinfo) : Int :=
  if af = AF_UNSPEC then
    results.foldl (fun a rp => if rp.ai_family = AF_INET6 then AF_INET6 else a) AF_INET
  else
    af

/-- The candidate loop of `create_socket` (lines 62-80), from the candidate at
position `i` on, `fd` being the value of the variable `fd` on entry: the value
of `fd` when the loop is left, and the calls made. -/
def socket_loop (af : Int) (hostname_null : Bool) :
    Nat → Int → List addrinfo → Int × List SockCall
  | _, fd, [] => (fd, [])
  | i, fd, rp :: rest =>
    if rp.ai_family ≠ af then
      socket_loop af hostname_null (i + 1) fd rest
    else if socket_ret rp = -1 then
      ((socket_loop af hostname_null (i + 1) (socket_ret rp) rest).1,
        SockCall.socket i (socket_ret rp)
          :: (socket_loop af hostname_null (i + 1) (socket_ret rp) rest).2)
    else if hostname_null then
      if bind_ret rp = 0 then
        (socket_ret rp, [SockCall.socket i (socket_ret rp), SockCall.bind (socket_ret rp) i 0])
      else
        ((socket_loop af hostname_null (i + 1) (-1) rest).1,
          SockCall.socket i (socket_ret rp) :: SockCall.bind (socket_ret rp) i (bind_ret rp)
            :: SockCall.close (socket_ret rp)
            :: (socket_loop af hostname_null (i + 1) (-1) rest).2)
    else
      if connect_ret rp ≠ -1 then
        (socket_ret rp,
          [SockCall.socket i (socket_ret rp), SockCall.connect (socket_ret rp) i (connect_ret rp)])
      else
        ((socket_loop af hostname_null (i + 1) (-1) rest).1,
          SockCall.socket i (socket_ret rp)
            :: SockCall.connect (socket_ret rp) i (connect_ret rp)
            :: SockCall.close (socket_ret rp)
            :: (socket_loop af hostname_null (i + 1) (-1) rest).2)

/-- `create_socket` (lines 33-88): `err` and `results` are what `getaddrinfo`
returned, `hostname` is `none` for a null pointer.  The result is the
returned descriptor and the calls made. -/
def create_socket (af : Int) (hostname : Option Nat) (err : Int) (results : List addrinfo) :
    Int × List SockCall :=
  if err ≠ 0 then
    (-1, [])
  else if results.isEmpty then
    (-1, [])
  else
    let r := socket_loop (choose_family af results) hostname.isNone 0 (-1) results
    if r.1 ≥ 0 then (r.1, r.2 ++ [SockCall.set_nonblocking r.1]) else (r.1, r.2)

/-- In the words of the specification: a candidate is usable when its family
is the chosen one, its socket can be opened, and the bind (no hostname) or
the connect (hostname given) on it succeeds. -/
def usable (af : Int) (hostname_null : Bool) (rp : addrinfo) : Bool :=
  decide (rp.ai_family = af) && rp.sock.isSome
    && (if hostname_null then rp.bind_ok else rp.connect_ok)

/-- In the words of the specification: the descriptor of the first usable
candidate in resolver order, or -1 when there is none. -/
def first_usable_fd (af : Int) (hostname_null : Bool) (results : List addrinfo) : Int :=
  match results.find? (usable af hostname_null) with
  | some rp => socket_ret rp
  | none => -1

/-- Follow the descriptors through a sequence of calls, `cur` being the one
currently open: `none` when a socket is opened while another is still open or
a call names a descriptor that is not the open one, otherwise the descriptor
left open at the end. -/
def track_fd : Option Int → List SockCall → Option (Option Int)
  | cur, [] => some cur
  | none, .socket _ ret :: t => track_fd (if ret = -1 then none else some ret) t
  | some fd, .bind fd1 _ _ :: t => if fd1 = fd then track_fd (some fd) t else none
  | some fd, .connect fd1 _ _ :: t => if fd1 = fd then track_fd (some fd) t else none
  | some fd, .close fd1 :: t => if fd1 = fd then track_fd none t else none
  | some fd, .set_nonblocking fd1 :: t => if fd1 = fd then track_fd (some fd) t else none
  | _, _ :: _ => none

/-- Position of a state in the declaration order of `enum states`. -/
def states.rank : states → Nat
  | .STATE_START => 0
  | .STATE_START_SENT => 1
  | .STATE_STARTED => 2
  | .STATE_DYING => 3

/-! ## Byte-order lemmas -/

theorem bytes_of_sum (a b c d : Nat) (ha : a < 256) (hb : b < 256) (hc : c < 256)
    (hd : d < 256) :
    (a * 16777216 + b * 65536 + c * 256 + d) / 16777216 % 256 = a
      ∧ (a * 16777216 + b * 65536 + c * 256 + d) / 65536 % 256 = b
      ∧ (a * 16777216 + b * 65536 + c * 256 + d) / 256 % 256 = c
      ∧ (a * 16777216 + b * 65536 + c * 256 + d) % 256 = d := by
  refine ⟨by omega, by omega, by omega, by omega⟩

theorem sum_of_bytes (x : Nat) (hx : x < 4294967296) :
    x / 16777216 % 256 * 16777216 + x / 65536 % 256 * 65536 + x / 256 % 256 * 256 + x % 256
      = x := by
  omega

theorem be_bytes_bswap32 (x : Nat) :
    be_bytes (bswap32 x)
      = [x % 256, x / 256 % 256, x / 65536 % 256, x / 16777216 % 256] := by
  have h := bytes_of_sum (x % 256) (x / 256 % 256) (x / 65536 % 256) (x / 16777216 % 256)
    (Nat.mod_lt _ (by norm_num)) (Nat.mod_lt _ (by norm_num)) (Nat.mod_lt _ (by norm_num))
    (Nat.mod_lt _ (by norm_num))
  simp only [be_bytes, bswap32, h.1, h.2.1, h.2.2.1, h.2.2.2]

theorem bswap32_bswap32 (x : Nat) (hx : x < 4294967296) : bswap32 (bswap32 x) = x := by
  have h := be_bytes_bswap32 x
  simp only [be_bytes, List.cons.injEq, and_true] at h
  have hs := sum_of_bytes x hx
  unfold bswap32 at h ⊢
  rw [h.1, h.2.1, h.2.2.1, h.2.2.2]
  omega

/-- In memory, `htonl x` is the big-endian image of `x`, whatever the host
byte order. -/
theorem store32_htonl (e : Endian) (x : Nat) : store32 e (htonl e x) = be_bytes x := by
  cases e
  · have h2 := be_bytes_bswap32 x
    simp only [be_bytes, List.cons.injEq, and_true] at h2
    simp only [store32, htonl, be_bytes, List.cons.injEq, and_true]
    refine ⟨h2.2.2.2, h2.2.2.1, h2.2.1, h2.1⟩
  · simp only [store32, htonl, be_bytes, List.cons.injEq, and_true]
    refine ⟨by omega, by omega, by omega, by omega⟩

/-- Reading a big-endian image back and applying `ntohl` gives the value. -/
theorem ntohl_load32_be (e : Endian) (x : Nat) (hx : x < 4294967296) (rest : Buf) :
    ntohl e (load32 e (be_bytes x ++ rest)) = x := by
  have hs := sum_of_bytes x hx
  cases e
  · have hb : load32 Endian.little (be_bytes x ++ rest) = bswap32 x := by
      simp only [load32, bswap32, be_bytes, List.cons_append, List.nil_append,
        List.getD_cons_zero, List.getD_cons_succ]
      omega
    rw [hb]
    exact bswap32_bswap32 x hx
  · simp only [ntohl, load32, be_bytes, List.cons_append, List.nil_append,
      List.getD_cons_zero, List.getD_cons_succ]
    omega


/-! ## The receive model and the message images -/

theorem recv_ret_full (p : Buf) (src : Addr) (l : Nat) (h : sizeof_nio_cmd ≤ p.length) :
    recv_ret (.dgram p src l) = (sizeof_nio_cmd : Int) := by
  simp only [recv_ret, Nat.min_eq_right h]

theorem recv_ret_short (p : Buf) (src : Addr) (l : Nat) (h : p.length < sizeof_nio_cmd) :
    recv_ret (.dgram p src l) ≠ (sizeof_nio_cmd : Int) := by
  simp only [recv_ret, Nat.min_eq_left (Nat.le_of_lt h), ne_eq, Nat.cast_inj]
  omega

theorem get_field_recv_buf (e : Endian) (p old : Buf) (src : Addr) (l : Nat)
    (h : sizeof_nio_cmd ≤ p.length) :
    get_field e (recv_buf (.dgram p src l) old) off_cmd = get_field e p off_cmd := by
  match p, h with
  | a :: b :: c :: d :: t, _ =>
    cases e <;> simp [get_field, recv_buf, off_cmd, load32, sizeof_nio_cmd]

theorem set_field_cmd (e : Endian) (c : Nat) :
    set_field e memset0 off_cmd (htonl e c) = wire_msg c 0 := by
  simp [set_field, store32_htonl, memset0, off_cmd, wire_msg, sizeof_nio_cmd, be_bytes,
    List.replicate]

/-! ## The read and write blocks of ctrl_server -/

theorem server_read_wrong_size (e : Endian) (r : RecvEvent) (s : Server)
    (h : recv_ret r ≠ (sizeof_nio_cmd : Int)) :
    (server_read e r s).proto = s.proto
      ∧ (server_read e r s).trace = s.trace ++ [Call.recvfrom (recv_ret r)] := by
  cases r <;> simp [server_read, h, Server.proto]

theorem server_read_full (e : Endian) (p : Buf) (src : Addr) (l : Nat) (s : Server)
    (h : sizeof_nio_cmd ≤ p.length) :
    server_read e (.dgram p src l) s =
      if ntohl e (get_field e p off_cmd) = CMD_START then
        if s.state ≠ STATE_START then s.received p src l
        else { s.received p src l with cmd := wire_msg CMD_ACK 0, cmd_write := true }
      else if ntohl e (get_field e p off_cmd) = CMD_STOP then
        { s.received p src l with state := STATE_DYING }
      else s.received p src l := by
  simp only [server_read, recv_ret_full p src l h, ne_eq, not_true_eq_false, if_false,
    get_field_recv_buf e p _ src l h, set_field_cmd, Server.received]

theorem server_write_ok (s : Server) (h : s.state = STATE_START) :
    server_write (sizeof_nio_cmd : Int) s =
      .running { s with trace := s.trace ++ [Call.sendto s.cmd s.remote s.r_len sizeof_nio_cmd],
                        cmd_write := false, state := STATE_STARTED } := by
  simp [server_write, h]

theorem server_write_not_start (sent : Int) (s : Server) (h : s.state ≠ STATE_START) :
    server_write sent s = .running s := by
  simp [server_write, h]


theorem server_read_trace (e : Endian) (r : RecvEvent) (s : Server) :
    (server_read e r s).trace = s.trace ++ [Call.recvfrom (recv_ret r)] := by
  cases r <;> simp only [server_read] <;> split_ifs <;> rfl

theorem server_read_not_start (e : Endian) (r : RecvEvent) (s : Server)
    (hs : s.state ≠ STATE_START) (hr : ¬ is_stop e r) :
    (server_read e r s).proto = s.proto := by
  by_cases hret : recv_ret r = (sizeof_nio_cmd : Int)
  · cases r with
    | fail => simp [recv_ret] at hret
    | dgram q src l =>
      have hq : sizeof_nio_cmd ≤ q.length := by
        by_contra hlt
        exact recv_ret_short q src l (Nat.lt_of_not_le hlt) hret
      have hns : ntohl e (get_field e q off_cmd) ≠ CMD_STOP :=
        fun hc => hr ⟨q, src, l, rfl, hq, hc⟩
      rw [server_read_full e q src l s hq]
      simp only [hs, ne_eq, not_false_eq_true, if_true, hns, if_false]
      split_ifs <;> rfl
  · exact (server_read_wrong_size e r s hret).1

theorem store_addr_fits (src : Addr) (l : Nat) (old : Addr)
    (hl : l ≤ sizeof_sockaddr) (hsrc : src < 256 ^ l) :
    store_addr src l old % 256 ^ l = src := by
  unfold store_addr
  rw [Nat.min_eq_left hl, Nat.mod_mod_of_dvd _ (pow_dvd_pow 256 hl),
    Nat.add_mul_mod_self_right, Nat.mod_mod, Nat.mod_eq_of_lt hsrc]

theorem sendto_dest_store_addr (src : Addr) (l : Nat) (old : Addr)
    (hl : l ≤ sizeof_sockaddr) (hsrc : src < 256 ^ l) :
    sendto_dest (store_addr src l old) l = some src := by
  simp only [sendto_dest, hl, if_true, store_addr_fits src l old hl hsrc]

/-- The handshake with a peer whose address fits `struct sockaddr`: from the
initial variables of `ctrl_server`, a pass whose read block receives a 24-byte
datagram with command `START` from an address `X` of at most 16 bytes,
followed by a pass in which `select` reports the socket writable, the
shutdown flag is clear and `sendto` accepts the whole message, makes exactly
one send: the 24 bytes 00 00 00 02 and twenty zero bytes, with a destination
that reads as `X`.  The loop is still running afterwards, in `STATE_STARTED`
with `cmd_write` cleared (the second pass may also read, provided it does not
read a `STOP`). -/
theorem server_handshake (e : Endian) (cmd0 recv0 : Buf) (remote0 : Addr) (r_len0 : Nat)
    (p : Buf) (X : Addr) (xlen : Nat) (wr1 rd2 : Bool) (sent1 : Int) (r2 : RecvEvent)
    (hp : p.length = sizeof_nio_cmd)
    (hc : ntohl e (get_field e p off_cmd) = CMD_START)
    (hfit : xlen ≤ sizeof_sockaddr) (hX : X < 256 ^ xlen)
    (h2 : rd2 = true → ¬ is_stop e r2) :
    ∃ s2 : Server,
      ctrl_server_loop e
          [ { sel := .ok true wr1, stop := false, sent := sent1, rcv := .dgram p X xlen },
            { sel := .ok rd2 true, stop := false, sent := (sizeof_nio_cmd : Int), rcv := r2 } ]
          (ctrl_server_init cmd0 recv0 remote0 r_len0) = .running s2
      ∧ s2.state = STATE_STARTED
      ∧ s2.cmd_write = false
      ∧ s2.trace =
          [Call.select false, Call.recvfrom 24, Call.select true,
           Call.sendto ([0, 0, 0, 2] ++ List.replicate 20 0)
             (store_addr X xlen remote0) xlen 24]
            ++ (if rd2 then [Call.recvfrom (recv_ret r2)] else [])
      ∧ sendto_dest (store_addr X xlen remote0) xlen = some X := by
  have hfull : sizeof_nio_cmd ≤ p.length := Nat.le_of_eq hp.symm
  have hack : wire_msg CMD_ACK 0 = [0, 0, 0, 2] ++ List.replicate 20 0 := by decide
  have hret : recv_ret (.dgram p X xlen) = 24 := recv_ret_full p X xlen hfull
  have hdest := sendto_dest_store_addr X xlen remote0 hfit hX
  simp only [ctrl_server_loop, ctrl_server_body, ctrl_server_init,
    server_read_full e p X xlen _ hfull, hc, Server.received, hret]
  simp [server_write, sizeof_nio_cmd, hack]
  cases rd2 with
  | false => simpa using hdest
  | true =>
    have h := server_read_not_start e r2
      { state := STATE_STARTED, cmd := wire_msg CMD_ACK 0,
        recv_cmd := recv_buf (.dgram p X xlen) recv0, remote := store_addr X xlen remote0,
        r_len := xlen, cmd_write := false,
        trace := [Call.select false, Call.recvfrom 24, Call.select true,
           Call.sendto ([0, 0, 0, 2] ++ List.replicate 20 0)
             (store_addr X xlen remote0) xlen 24] }
      (by simp) (h2 rfl)
    simp [Server.proto, hack] at h
    simp [server_read_trace, h, hack, hdest]

/-- C1 fails for a source address longer than `struct sockaddr`.  A `START`
arrives from an IPv6 peer, whose address has 28 bytes (here family 10, port
7124, address ::1): `recvfrom` stores its first 16 bytes in `remote` and 28 in
`r_len`.  In the next pass the `ACK` is handed to `sendto` with that variable
and the length 28: the call reads 12 bytes past `remote`, what `remote` holds
is not the peer's address, and the destination the call names is not given by
it. -/
theorem handshake_ipv6_source_cut :
    ctrl_server_loop .little
        [ { sel := .ok true false, stop := false, sent := 24,
            rcv := .dgram (wire_msg CMD_START 4)
              (10 + 27 * 256 ^ 2 + 212 * 256 ^ 3 + 256 ^ 23) 28 },
          { sel := .ok false true, stop := false, sent := 24, rcv := .fail } ]
        (ctrl_server_init (List.replicate 24 0) (List.replicate 24 0) 0 0)
      = .running
        { state := STATE_STARTED, cmd := wire_msg CMD_ACK 0, recv_cmd := wire_msg CMD_START 4,
          remote := 10 + 27 * 256 ^ 2 + 212 * 256 ^ 3, r_len := 28, cmd_write := false,
          trace := [Call.select false, Call.recvfrom 24, Call.select true,
                    Call.sendto (wire_msg CMD_ACK 0) (10 + 27 * 256 ^ 2 + 212 * 256 ^ 3) 28 24] }
    ∧ sendto_dest (10 + 27 * 256 ^ 2 + 212 * 256 ^ 3) 28 = none
    ∧ (10 + 27 * 256 ^ 2 + 212 * 256 ^ 3 : Nat) ≠ 10 + 27 * 256 ^ 2 + 212 * 256 ^ 3 + 256 ^ 23 := by
  refine ⟨by decide, by decide, by decide⟩

/-! ## The blocks of ctrl_client -/

theorem sent_bufs_append (a b : List Call) : sent_bufs (a ++ b) = sent_bufs a ++ sent_bufs b := by
  induction a with
  | nil => rfl
  | cons c t ih => cases c <;> simp [sent_bufs, ih]

theorem to_uint32_of_nonneg (t : Int) (h0 : 0 ≤ t) (h1 : t < 4294967296) :
    to_uint32 t = t.toNat := by
  unfold to_uint32
  rw [Int.emod_eq_of_lt h0 h1]

theorem client_init_cmd (e : Endian) (t : Int) (recv0 : Buf) :
    (ctrl_client_init e t recv0).cmd = wire_msg CMD_START (to_uint32 t) := by
  simp only [ctrl_client_init, set_field_cmd]
  simp [set_field, store32_htonl, wire_msg, off_threads, be_bytes, List.replicate, CMD_START]

theorem client_read_trace (e : Endian) (r : RecvEvent) (s : Client) :
    (client_read e r s).trace = s.trace ++ [Call.recv (recv_ret r)] := by
  simp only [client_read]
  split_ifs <;> rfl

theorem client_read_cmd (e : Endian) (r : RecvEvent) (s : Client) :
    (client_read e r s).cmd = s.cmd ∧ (client_read e r s).cmd_write = s.cmd_write := by
  simp only [client_read]
  split_ifs <;> exact ⟨rfl, rfl⟩

theorem client_read_state (e : Endian) (r : RecvEvent) (s : Client)
    (h : s.state ≠ STATE_START_SENT) : (client_read e r s).state = s.state := by
  simp only [client_read]
  split_ifs <;> rfl

theorem client_write_ok (stop2 : Bool) (s : Client) :
    client_write (sizeof_nio_cmd : Int) stop2 s =
      .running { s with
        state := if stop2 then STATE_DYING
                 else if s.state = STATE_START then STATE_START_SENT else s.state,
        cmd_write := false,
        trace := s.trace ++ [Call.send s.cmd sizeof_nio_cmd] } := by
  cases stop2 <;> by_cases h : s.state = STATE_START <;> simp [client_write, h]

theorem client_body_first_send (e : Endian) (m : Buf) (env : ClientEnv) (s : Client)
    (h1 : env.stop1 = false) (h2 : env.stop2 = false) (hs : first_send_is m s) :
    first_send_is m (ctrl_client_body e env s).vars := by
  obtain ⟨stop1, sel, sent, stop2, rcv⟩ := env
  simp only at h1 h2
  subst h1 h2
  rcases hs with ⟨ht, hst, hc, hw⟩ | hsent
  · cases sel with
    | eintr =>
      left
      simp [ctrl_client_body, client_stop_check, Outcome.vars, sent_bufs_append, ht, hst, hc, hw,
        sent_bufs]
    | error =>
      left
      simp [ctrl_client_body, client_stop_check, Outcome.vars, sent_bufs_append, ht, hst, hc, hw,
        sent_bufs]
    | ok rd wr =>
      cases wr with
      | false =>
        left
        cases rd with
        | false =>
          simp [ctrl_client_body, client_stop_check, Outcome.vars, sent_bufs_append, ht, hst,
            hc, hw, sent_bufs]
        | true =>
          simp only [ctrl_client_body, client_stop_check, hw, Bool.and_false, Bool.false_eq_true,
            if_false, if_true, Outcome.vars]
          refine ⟨?_, ?_, ?_, ?_⟩
          · simp [client_read_trace, sent_bufs_append, ht, sent_bufs]
          · rw [client_read_state _ _ _ (by simp [hst])]
            exact hst
          · rw [(client_read_cmd _ _ _).1]
            exact hc
          · rw [(client_read_cmd _ _ _).2]
      | true =>
        right
        by_cases hsz : sent = (sizeof_nio_cmd : Int)
        · subst hsz
          cases rd <;>
            simp [ctrl_client_body, client_stop_check, hw, client_write_ok, Outcome.vars,
              client_read_trace, sent_bufs_append, ht, sent_bufs, hc]
        · simp [ctrl_client_body, client_stop_check, hw, client_write, hsz, Outcome.vars,
            sent_bufs_append, ht, sent_bufs, hc]
  · right
    have hext : ∃ t, (ctrl_client_body e ⟨false, sel, sent, false, rcv⟩ s).vars.trace
        = s.trace ++ t := by
      cases sel with
      | eintr => exact ⟨_, by simp [ctrl_client_body, client_stop_check, Outcome.vars]; rfl⟩
      | error => exact ⟨_, by simp [ctrl_client_body, client_stop_check, Outcome.vars]; rfl⟩
      | ok rd wr =>
        simp only [ctrl_client_body, client_stop_check, client_write]
        cases rd <;> split_ifs <;>
          simp only [Outcome.vars, client_read_trace, List.append_assoc] <;>
          exact ⟨_, rfl⟩
    obtain ⟨t, ht⟩ := hext
    rw [ht, sent_bufs_append]
    cases hb : sent_bufs s.trace with
    | nil => simp [hb] at hsent
    | cons b rest =>
      rw [hb] at hsent
      simpa using hsent

theorem client_loop_first_send (e : Endian) (m : Buf) (envs : List ClientEnv)
    (h : ∀ env ∈ envs, env.stop1 = false ∧ env.stop2 = false) (s : Client)
    (hs : first_send_is m s) :
    first_send_is m (ctrl_client_loop e envs s).vars := by
  induction envs generalizing s with
  | nil =>
    simp only [ctrl_client_loop]
    split_ifs <;> exact hs
  | cons env rest ih =>
    simp only [ctrl_client_loop]
    split_ifs
    · exact hs
    · have hb := client_body_first_send e m env s (h env (List.mem_cons_self _ _)).1
        (h env (List.mem_cons_self _ _)).2 hs
      cases hbody : ctrl_client_body e env s with
      | running s1 =>
        rw [hbody] at hb
        exact ih (fun x hx => h x (List.mem_cons_of_mem _ hx)) s1 hb
      | returned s1 =>
        rw [hbody] at hb
        exact hb
      | exited s1 =>
        rw [hbody] at hb
        exact hb

theorem client_read_wrong_size (e : Endian) (r : RecvEvent) (s : Client)
    (h : recv_ret r ≠ (sizeof_nio_cmd : Int)) :
    client_read e r s = s.received r := by
  simp [client_read, h, Client.received]

theorem client_read_full (e : Endian) (p : Buf) (src : Addr) (l : Nat) (s : Client)
    (h : sizeof_nio_cmd ≤ p.length) :
    client_read e (.dgram p src l) s =
      if ntohl e (get_field e p off_cmd) = CMD_ACK ∧ s.state = STATE_START_SENT then
        { s.received (.dgram p src l) with state := STATE_STARTED }
      else s.received (.dgram p src l) := by
  simp only [client_read, recv_ret_full p src l h, ne_eq, not_true_eq_false, if_false,
    get_field_recv_buf e p _ src l h, Client.received]
  split_ifs <;> simp_all

/-- C2. Client initial message: for a configured thread count `t` with
`1 ≤ t < 2^31`, on entry to the loop of `ctrl_client` the state is
`STATE_START`, `cmd_write` is set, nothing was sent, and `cmd` is the 24 bytes
00 00 00 01, then `t` most significant byte first, then sixteen zero bytes.
In every run in which `should_stop` reads clear, either nothing has been sent
yet and these variables are unchanged, or the first buffer handed to `send`
is exactly this message; and a successful send from `STATE_START` with the
flag clear leaves the state `STATE_START_SENT`. -/
theorem client_initial_message (e : Endian) (t : Int) (recv0 : Buf)
    (ht1 : 1 ≤ t) (ht2 : t < 2147483648) :
    (ctrl_client_init e t recv0).cmd_write = true
      ∧ (ctrl_client_init e t recv0).state = STATE_START
      ∧ (ctrl_client_init e t recv0).trace = []
      ∧ (ctrl_client_init e t recv0).cmd
          = [0, 0, 0, 1] ++ be_bytes t.toNat ++ List.replicate 16 0
      ∧ (∀ envs : List ClientEnv, (∀ env ∈ envs, env.stop1 = false ∧ env.stop2 = false) →
          (sent_bufs (ctrl_client_loop e envs (ctrl_client_init e t recv0)).vars.trace = []
              ∧ (ctrl_client_loop e envs (ctrl_client_init e t recv0)).vars.state = STATE_START
              ∧ (ctrl_client_loop e envs (ctrl_client_init e t recv0)).vars.cmd
                  = [0, 0, 0, 1] ++ be_bytes t.toNat ++ List.replicate 16 0
              ∧ (ctrl_client_loop e envs (ctrl_client_init e t recv0)).vars.cmd_write = true)
            ∨ (sent_bufs (ctrl_client_loop e envs (ctrl_client_init e t recv0)).vars.trace).head?
                = some ([0, 0, 0, 1] ++ be_bytes t.toNat ++ List.replicate 16 0))
      ∧ (∀ s : Client, s.state = STATE_START →
          client_write (sizeof_nio_cmd : Int) false s =
            .running { s with state := STATE_START_SENT, cmd_write := false,
                              trace := s.trace ++ [Call.send s.cmd 24] }) := by
  have hcmd : (ctrl_client_init e t recv0).cmd
      = [0, 0, 0, 1] ++ be_bytes t.toNat ++ List.replicate 16 0 := by
    rw [client_init_cmd, to_uint32_of_nonneg t (by omega) (by omega)]
    rfl
  refine ⟨rfl, rfl, rfl, hcmd, ?_, ?_⟩
  · intro envs henvs
    exact client_loop_first_send e _ envs henvs _ (Or.inl ⟨rfl, rfl, hcmd, rfl⟩)
  · intro s hs
    rw [client_write_ok]
    simp [hs, sizeof_nio_cmd]

/-- C3. Client ACK transition: a read block that receives a 24-byte datagram
whose command decodes to `ACK` moves `STATE_START_SENT` to `STATE_STARTED` and
leaves every other state as it is; `cmd` and `cmd_write` are not touched. -/
theorem client_ack_transition (e : Endian) (s : Client) (p : Buf) (src : Addr) (l : Nat)
    (hp : p.length = sizeof_nio_cmd)
    (hc : ntohl e (get_field e p off_cmd) = CMD_ACK) :
    (client_read e (.dgram p src l) s).state
        = (if s.state = STATE_START_SENT then STATE_STARTED else s.state)
      ∧ (client_read e (.dgram p src l) s).cmd = s.cmd
      ∧ (client_read e (.dgram p src l) s).cmd_write = s.cmd_write := by
  rw [client_read_full e p src l s (Nat.le_of_eq hp.symm)]
  by_cases h : s.state = STATE_START_SENT <;> simp [hc, h, Client.received]


/-! ## Runs of ctrl_server -/

theorem server_loop_dying (e : Endian) (envs : List ServerEnv) (s : Server)
    (h : s.state = STATE_DYING) : ctrl_server_loop e envs s = .returned s := by
  cases envs <;> simp [ctrl_server_loop, h]

theorem server_read_state_ne_start (e : Endian) (r : RecvEvent) (s : Server)
    (hs : s.state ≠ STATE_START) : (server_read e r s).state ≠ STATE_START := by
  cases r <;> simp only [server_read] <;> split_ifs <;> simp_all

theorem server_body_no_send (e : Endian) (env : ServerEnv) (s : Server)
    (hs : s.state ≠ STATE_START) :
    (ctrl_server_body e env s).vars.state ≠ STATE_START
      ∧ sent_bufs (ctrl_server_body e env s).vars.trace = sent_bufs s.trace := by
  obtain ⟨sel, stop, sent, rcv⟩ := env
  cases sel with
  | eintr => simp [ctrl_server_body, Outcome.vars, hs, sent_bufs_append, sent_bufs]
  | error => simp [ctrl_server_body, Outcome.vars, hs, sent_bufs_append, sent_bufs]
  | ok rd wr =>
    cases stop with
    | true => simp [ctrl_server_body, Outcome.vars, hs, sent_bufs_append, sent_bufs]
    | false =>
      have hw : ∀ b : Bool,
          (if b = true then
              server_write sent { s with trace := s.trace ++ [Call.select s.cmd_write] }
            else .running { s with trace := s.trace ++ [Call.select s.cmd_write] })
            = .running { s with trace := s.trace ++ [Call.select s.cmd_write] } := by
        intro b
        rw [server_write_not_start sent
          { s with trace := s.trace ++ [Call.select s.cmd_write] } hs]
        simp
      simp only [ctrl_server_body, Bool.false_eq_true, if_false, hw]
      cases rd with
      | false => simp [Outcome.vars, hs, sent_bufs_append, sent_bufs]
      | true =>
        simp only [if_true, Outcome.vars]
        refine ⟨server_read_state_ne_start e rcv _ hs, ?_⟩
        simp [server_read_trace, sent_bufs_append, sent_bufs]

theorem server_loop_no_send (e : Endian) (envs : List ServerEnv) (s : Server)
    (hs : s.state ≠ STATE_START) :
    sent_bufs (ctrl_server_loop e envs s).vars.trace = sent_bufs s.trace := by
  induction envs generalizing s with
  | nil =>
    simp only [ctrl_server_loop]
    split_ifs <;> rfl
  | cons env rest ih =>
    simp only [ctrl_server_loop]
    split_ifs
    · rfl
    · have hb := server_body_no_send e env s hs
      cases hbody : ctrl_server_body e env s with
      | running s1 =>
        rw [hbody] at hb
        simp only [Outcome.vars] at hb
        rw [ih s1 hb.1, hb.2]
      | returned s1 =>
        rw [hbody] at hb
        exact hb.2
      | exited s1 =>
        rw [hbody] at hb
        exact hb.2

/-- C5. Server STOP transition: in `STATE_START` or `STATE_STARTED`, with or
without an `ACK` pending, a read block that receives a 24-byte datagram whose
command decodes to `STOP` sets the state to `STATE_DYING` and leaves `cmd` and
`cmd_write` as they were; the loop test that follows fails, so the loop
returns without any further call, whatever the socket would offer: a pass
that only reads the `STOP` ends the run after `select` and `recvfrom`, a
pending `ACK` staying unsent. -/
theorem server_stop_transition (e : Endian) (s : Server) (p : Buf) (src : Addr) (l : Nat)
    (hs : s.state = STATE_START ∨ s.state = STATE_STARTED)
    (hp : p.length = sizeof_nio_cmd)
    (hc : ntohl e (get_field e p off_cmd) = CMD_STOP) :
    (server_read e (.dgram p src l) s).state = STATE_DYING
      ∧ (server_read e (.dgram p src l) s).cmd = s.cmd
      ∧ (server_read e (.dgram p src l) s).cmd_write = s.cmd_write
      ∧ (server_read e (.dgram p src l) s).trace = s.trace ++ [Call.recvfrom 24]
      ∧ (∀ envs : List ServerEnv,
          ctrl_server_loop e envs (server_read e (.dgram p src l) s)
            = .returned (server_read e (.dgram p src l) s))
      ∧ (∀ (rest : List ServerEnv) (sent : Int),
          ∃ s2 : Server,
            ctrl_server_loop e
                ({ sel := .ok true false, stop := false, sent := sent,
                   rcv := .dgram p src l } :: rest) s = .returned s2
            ∧ s2.state = STATE_DYING
            ∧ s2.cmd_write = s.cmd_write
            ∧ s2.trace = s.trace ++ [Call.select s.cmd_write, Call.recvfrom 24]) := by
  have hfull : sizeof_nio_cmd ≤ p.length := Nat.le_of_eq hp.symm
  have hne : ¬ (CMD_STOP = CMD_START) := by decide
  have hret : recv_ret (.dgram p src l) = 24 := recv_ret_full p src l hfull
  have hst : ∀ s0 : Server, (server_read e (.dgram p src l) s0).state = STATE_DYING := by
    intro s0
    rw [server_read_full e p src l s0 hfull]
    simp [hc, hne]
  have hrest : ∀ s0 : Server,
      (server_read e (.dgram p src l) s0).cmd = s0.cmd
        ∧ (server_read e (.dgram p src l) s0).cmd_write = s0.cmd_write
        ∧ (server_read e (.dgram p src l) s0).trace = s0.trace ++ [Call.recvfrom 24] := by
    intro s0
    rw [server_read_full e p src l s0 hfull]
    simp [hc, hne, Server.received, hret]
  refine ⟨hst s, (hrest s).1, (hrest s).2.1, (hrest s).2.2, ?_, ?_⟩
  · intro envs
    exact server_loop_dying e envs _ (hst s)
  · intro rest sent
    have hnd : s.state ≠ STATE_DYING := by
      rcases hs with h | h <;> simp [h]
    refine ⟨server_read e (.dgram p src l)
      { s with trace := s.trace ++ [Call.select s.cmd_write] }, ?_, hst _, (hrest _).2.1, ?_⟩
    · simp only [ctrl_server_loop, hnd, if_false, ctrl_server_body, Bool.and_false,
        Bool.false_eq_true, if_true]
      exact server_loop_dying e rest _ (hst _)
    · rw [(hrest _).2.2]
      simp


theorem set_fields_wire (e : Endian) (c t : Nat) :
    set_field e (set_field e memset0 off_cmd (htonl e c)) off_threads (htonl e t)
      = wire_msg c t := by
  simp only [set_field_cmd]
  simp [set_field, store32_htonl, wire_msg, off_threads, be_bytes, List.replicate]

/-- C6. Duplicate START on the server: in `STATE_STARTED` a read block that
receives a 24-byte `START` datagram leaves the state, `cmd` and `cmd_write`
as they were; so does any number of repetitions of that read; and in no
continuation of the run, whatever `select`, `sendto` and `recvfrom` return,
is anything handed to `sendto` again. -/
theorem server_duplicate_start (e : Endian) (s : Server) (p : Buf) (src : Addr) (l : Nat)
    (hs : s.state = STATE_STARTED)
    (hp : p.length = sizeof_nio_cmd)
    (hc : ntohl e (get_field e p off_cmd) = CMD_START) :
    (server_read e (.dgram p src l) s).state = STATE_STARTED
      ∧ (server_read e (.dgram p src l) s).cmd = s.cmd
      ∧ (server_read e (.dgram p src l) s).cmd_write = s.cmd_write
      ∧ (server_read e (.dgram p src l) s).trace = s.trace ++ [Call.recvfrom 24]
      ∧ (∀ n : Nat, ((server_read e (.dgram p src l))^[n] s).proto = s.proto)
      ∧ (∀ envs : List ServerEnv,
          sent_bufs (ctrl_server_loop e envs (server_read e (.dgram p src l) s)).vars.trace
            = sent_bufs s.trace) := by
  have hnstop : ¬ is_stop e (.dgram p src l) := by
    rintro ⟨q, src1, l1, hq, -, hstop⟩
    simp only [RecvEvent.dgram.injEq] at hq
    rw [← hq.1, hc] at hstop
    exact absurd hstop (by decide)
  have hkeep : ∀ s0 : Server, s0.state = STATE_STARTED →
      (server_read e (.dgram p src l) s0).proto = s0.proto := by
    intro s0 h0
    exact server_read_not_start e _ s0 (by simp [h0]) hnstop
  have h1 := hkeep s hs
  simp only [Server.proto, Prod.mk.injEq] at h1
  have htr : (server_read e (.dgram p src l) s).trace = s.trace ++ [Call.recvfrom 24] := by
    rw [server_read_trace, recv_ret_full p src l (Nat.le_of_eq hp.symm)]
    rfl
  refine ⟨h1.1.trans hs, h1.2.1, h1.2.2, htr, ?_, ?_⟩
  · intro n
    induction n with
    | zero => rfl
    | succ k ih =>
      rw [Function.iterate_succ_apply']
      have hk : ((server_read e (.dgram p src l))^[k] s).state = STATE_STARTED := by
        have := congrArg Prod.fst ih
        simp only [Server.proto] at this
        exact this.trans hs
      rw [hkeep _ hk, ih]
  · intro envs
    rw [server_loop_no_send e envs _ (by rw [h1.1.trans hs]; simp), server_read_trace,
      sent_bufs_append]
    simp [sent_bufs]

/-- C7. Short datagrams are discarded: when `recvfrom`/`recv` returns less
than 24 (a failure, or a datagram shorter than the message), the read block
of either role leaves state, `cmd` and `cmd_write` unchanged and makes no
call besides the receive itself; the pass ends with the loop still running
(no `exit`, no `break`), also when the same pass first wrote successfully. -/
theorem short_datagram_discarded (e : Endian) (r : RecvEvent)
    (hr : recv_ret r < (sizeof_nio_cmd : Int)) :
    (∀ s : Server, (server_read e r s).proto = s.proto
        ∧ (server_read e r s).trace = s.trace ++ [Call.recvfrom (recv_ret r)])
      ∧ (∀ s : Client, (client_read e r s).proto = s.proto
        ∧ (client_read e r s).trace = s.trace ++ [Call.recv (recv_ret r)])
      ∧ (∀ (s : Server) (sent : Int),
          ctrl_server_body e { sel := .ok true false, stop := false, sent := sent, rcv := r } s
            = .running (server_read e r { s with trace := s.trace ++ [Call.select s.cmd_write] }))
      ∧ (∀ (s : Client) (sent : Int) (stop2 : Bool),
          ctrl_client_body e
              { stop1 := false, sel := .ok true false, sent := sent, stop2 := stop2, rcv := r } s
            = .running (client_read e r { s with trace := s.trace ++ [Call.select s.cmd_write] }))
      ∧ (∀ (s : Server) (wr : Bool), ∃ s2 : Server,
          ctrl_server_body e
              { sel := .ok true wr, stop := false, sent := (sizeof_nio_cmd : Int), rcv := r } s
            = .running s2)
      ∧ (∀ (s : Client) (wr stop1 stop2 : Bool), ∃ s2 : Client,
          ctrl_client_body e
              { stop1 := stop1, sel := .ok true wr, sent := (sizeof_nio_cmd : Int),
                stop2 := stop2, rcv := r } s
            = .running s2) := by
  have hne : recv_ret r ≠ (sizeof_nio_cmd : Int) := ne_of_lt hr
  refine ⟨fun s => server_read_wrong_size e r s hne, fun s => ?_, ?_, ?_, ?_, ?_⟩
  · rw [client_read_wrong_size e r s hne]
    exact ⟨rfl, rfl⟩
  · intro s sent
    simp [ctrl_server_body]
  · intro s sent stop2
    simp [ctrl_client_body, client_stop_check]
  · intro s wr
    simp only [ctrl_server_body, Bool.false_eq_true, if_false, server_write, ne_eq,
      not_true_eq_false]
    split_ifs <;> exact ⟨_, rfl⟩
  · intro s wr stop1 stop2
    simp only [ctrl_client_body, client_write_ok]
    split_ifs <;> exact ⟨_, rfl⟩

/-- C9. Unknown commands are ignored: for a 24-byte datagram whose decoded
command is none of 1, 2, 3, 4 the read block of either role leaves state,
`cmd` and `cmd_write` unchanged; so it does on the server for `ACK` and
`DATA`, and on the client for `START` and `STOP`. -/
theorem unknown_command_ignored (e : Endian) (p : Buf) (src : Addr) (l : Nat)
    (hp : p.length = sizeof_nio_cmd) :
    (∀ s : Server,
        (ntohl e (get_field e p off_cmd) ∉ [CMD_START, CMD_ACK, CMD_STOP, CMD_DATA]
          ∨ ntohl e (get_field e p off_cmd) = CMD_ACK
          ∨ ntohl e (get_field e p off_cmd) = CMD_DATA) →
        (server_read e (.dgram p src l) s).proto = s.proto)
      ∧ (∀ s : Client,
        (ntohl e (get_field e p off_cmd) ∉ [CMD_START, CMD_ACK, CMD_STOP, CMD_DATA]
          ∨ ntohl e (get_field e p off_cmd) = CMD_START
          ∨ ntohl e (get_field e p off_cmd) = CMD_STOP) →
        (client_read e (.dgram p src l) s).proto = s.proto) := by
  have hfull : sizeof_nio_cmd ≤ p.length := Nat.le_of_eq hp.symm
  constructor
  · intro s h
    have h1 : ntohl e (get_field e p off_cmd) ≠ CMD_START := by
      rcases h with h | h | h
      · intro hc; exact h (by simp [hc])
      · rw [h]; decide
      · rw [h]; decide
    have h3 : ntohl e (get_field e p off_cmd) ≠ CMD_STOP := by
      rcases h with h | h | h
      · intro hc; exact h (by simp [hc])
      · rw [h]; decide
      · rw [h]; decide
    rw [server_read_full e p src l s hfull]
    simp [h1, h3, Server.received, Server.proto]
  · intro s h
    have h2 : ntohl e (get_field e p off_cmd) ≠ CMD_ACK := by
      rcases h with h | h | h
      · intro hc; exact h (by simp [hc])
      · rw [h]; decide
      · rw [h]; decide
    rw [client_read_full e p src l s hfull]
    simp [h2, Client.received, Client.proto]

/-- C10. Wire encoding round trip: for every 32-bit value `x`, on either host
byte order the memory image of `htonl x` is `x` most significant byte first,
and `ntohl` of the value read from those four bytes is `x`.  Hence a message
built by a sender of byte order `es` with command `c` (one of the four
command codes) and thread count `t` is the 24 bytes `c`, `t`, zeros in
big-endian form, and a receiver of any byte order `er` decodes `c` and `t`
from it; the structure is six 32-bit fields, 24 bytes. -/
theorem wire_round_trip (es er : Endian) (x c t : Nat)
    (hx : x < 4294967296)
    (hc : c ∈ [CMD_START, CMD_ACK, CMD_STOP, CMD_DATA])
    (ht : t < 4294967296) :
    store32 es (htonl es x) = [x / 16777216 % 256, x / 65536 % 256, x / 256 % 256, x % 256]
      ∧ ntohl er (load32 er (store32 es (htonl es x))) = x
      ∧ set_field es (set_field es memset0 off_cmd (htonl es c)) off_threads (htonl es t)
          = be_bytes c ++ be_bytes t ++ List.replicate 16 0
      ∧ (set_field es (set_field es memset0 off_cmd (htonl es c)) off_threads
          (htonl es t)).length = 24
      ∧ ntohl er (get_field er
          (set_field es (set_field es memset0 off_cmd (htonl es c)) off_threads (htonl es t))
          off_cmd) = c
      ∧ ntohl er (get_field er
          (set_field es (set_field es memset0 off_cmd (htonl es c)) off_threads (htonl es t))
          off_threads) = t
      ∧ sizeof_nio_cmd = 24 := by
  have hc4 : c < 4294967296 := by
    simp only [List.mem_cons, List.mem_singleton, CMD_START, CMD_ACK, CMD_STOP, CMD_DATA,
      List.mem_nil_iff, or_false] at hc
    omega
  have hx2 := ntohl_load32_be er x hx []
  rw [List.append_nil] at hx2
  refine ⟨store32_htonl es x, by rw [store32_htonl]; exact hx2, set_fields_wire es c t, ?_, ?_,
    ?_, rfl⟩
  · rw [set_fields_wire]
    simp [wire_msg, be_bytes]
  · rw [set_fields_wire]
    simp only [get_field, off_cmd, List.drop_zero, wire_msg, List.append_assoc]
    exact ntohl_load32_be er c hc4 _
  · rw [set_fields_wire]
    have hd : List.drop off_threads (wire_msg c t) = be_bytes t ++ List.replicate 16 0 := by
      simp [wire_msg, be_bytes, off_threads]
    simp only [get_field, hd]
    exact ntohl_load32_be er t ht _


/-! ## Concrete instances -/

/-- Instance of `server_handshake`: a little-endian server receives a `START`
with thread count 4 from the 16-byte address 77, then finds the socket
writable and readable with nothing to read. -/
theorem server_handshake_witness :
    (wire_msg CMD_START 4).length = sizeof_nio_cmd
      ∧ ntohl .little (get_field .little (wire_msg CMD_START 4) off_cmd) = CMD_START
      ∧ ∃ s2 : Server,
        ctrl_server_loop .little
            [ { sel := .ok true false, stop := false, sent := 0,
                rcv := .dgram (wire_msg CMD_START 4) 77 16 },
              { sel := .ok true true, stop := false, sent := (sizeof_nio_cmd : Int),
                rcv := .fail } ]
            (ctrl_server_init (List.replicate 24 0) (List.replicate 24 0) 0 0) = .running s2
        ∧ s2.state = STATE_STARTED
        ∧ s2.cmd_write = false
        ∧ s2.trace =
            [Call.select false, Call.recvfrom 24, Call.select true,
             Call.sendto ([0, 0, 0, 2] ++ List.replicate 20 0) (store_addr 77 16 0) 16 24]
              ++ (if true then [Call.recvfrom (recv_ret .fail)] else [])
        ∧ sendto_dest (store_addr 77 16 0) 16 = some 77 :=
  ⟨by decide, by decide,
    server_handshake .little (List.replicate 24 0) (List.replicate 24 0) 0 0
      (wire_msg CMD_START 4) 77 16 false true 0 .fail (by decide) (by decide)
      (by decide) (by decide)
      (fun _ h => by
        obtain ⟨q, src, l, hq, _⟩ := h
        cases hq)⟩

/-- Instance of `client_initial_message`: thread count 4 on a little-endian
host, and a first pass in which the socket is writable. -/
theorem client_initial_message_witness :
    (1 : Int) ≤ 4 ∧ (4 : Int) < 2147483648
      ∧ (ctrl_client_init .little 4 []).cmd
          = [0, 0, 0, 1] ++ [0, 0, 0, 4] ++ List.replicate 16 0
      ∧ client_write (sizeof_nio_cmd : Int) false (ctrl_client_init .little 4 []) =
          .running { ctrl_client_init .little 4 [] with
            state := STATE_START_SENT, cmd_write := false,
            trace := (ctrl_client_init .little 4 []).trace
              ++ [Call.send (ctrl_client_init .little 4 []).cmd 24] } :=
  ⟨by decide, by decide,
    (client_initial_message .little 4 [] (by decide) (by decide)).2.2.2.1,
    (client_initial_message .little 4 [] (by decide) (by decide)).2.2.2.2.2 _ rfl⟩

/-- Instance of `client_ack_transition`: an `ACK` arriving in
`STATE_START_SENT`. -/
theorem client_ack_transition_witness :
    (wire_msg CMD_ACK 0).length = sizeof_nio_cmd
      ∧ ntohl .big (get_field .big (wire_msg CMD_ACK 0) off_cmd) = CMD_ACK
      ∧ (client_read .big (.dgram (wire_msg CMD_ACK 0) 5 16)
          { state := STATE_START_SENT, cmd := wire_msg CMD_START 1, recv_cmd := [],
            cmd_write := false, trace := [] }).state = STATE_STARTED :=
  ⟨by decide, by decide,
    (client_ack_transition .big
      { state := STATE_START_SENT, cmd := wire_msg CMD_START 1, recv_cmd := [],
        cmd_write := false, trace := [] }
      (wire_msg CMD_ACK 0) 5 16 (by decide) (by decide)).1⟩

/-- Instance of `server_stop_transition`: a `STOP` arriving while the `ACK`
is still pending in `STATE_START`. -/
theorem server_stop_transition_witness :
    (wire_msg CMD_STOP 0).length = sizeof_nio_cmd
      ∧ ntohl .little (get_field .little (wire_msg CMD_STOP 0) off_cmd) = CMD_STOP
      ∧ (server_read .little (.dgram (wire_msg CMD_STOP 0) 5 16)
          { state := STATE_START, cmd := wire_msg CMD_ACK 0, recv_cmd := wire_msg CMD_START 1,
            remote := 5, r_len := 16, cmd_write := true, trace := [] }).state = STATE_DYING :=
  ⟨by decide, by decide,
    (server_stop_transition .little
      { state := STATE_START, cmd := wire_msg CMD_ACK 0, recv_cmd := wire_msg CMD_START 1,
        remote := 5, r_len := 16, cmd_write := true, trace := [] }
      (wire_msg CMD_STOP 0) 5 16 (Or.inl rfl) (by decide) (by decide)).1⟩

/-- Instance of `server_duplicate_start`: a second `START` in
`STATE_STARTED`, read three times over. -/
theorem server_duplicate_start_witness :
    (wire_msg CMD_START 4).length = sizeof_nio_cmd
      ∧ ntohl .little (get_field .little (wire_msg CMD_START 4) off_cmd) = CMD_START
      ∧ ((server_read .little (.dgram (wire_msg CMD_START 4) 5 16))^[3]
          { state := STATE_STARTED, cmd := wire_msg CMD_ACK 0, recv_cmd := wire_msg CMD_START 4,
            remote := 5, r_len := 16, cmd_write := false, trace := [] }).proto
          = (STATE_STARTED, wire_msg CMD_ACK 0, false) :=
  ⟨by decide, by decide,
    (server_duplicate_start .little
      { state := STATE_STARTED, cmd := wire_msg CMD_ACK 0, recv_cmd := wire_msg CMD_START 4,
        remote := 5, r_len := 16, cmd_write := false, trace := [] }
      (wire_msg CMD_START 4) 5 16 rfl (by decide) (by decide)).2.2.2.2.1 3⟩

/-- Instance of `short_datagram_discarded`: a 10-byte datagram. -/
theorem short_datagram_discarded_witness :
    recv_ret (.dgram (List.replicate 10 0) 5 16) < (sizeof_nio_cmd : Int)
      ∧ (server_read .little (.dgram (List.replicate 10 0) 5 16)
          (ctrl_server_init [] [] 0 0)).proto = (ctrl_server_init [] [] 0 0).proto
      ∧ (client_read .little (.dgram (List.replicate 10 0) 5 16)
          (ctrl_client_init .little 1 [])).proto = (ctrl_client_init .little 1 []).proto :=
  ⟨by decide,
    ((short_datagram_discarded .little (.dgram (List.replicate 10 0) 5 16) (by decide)).1
      (ctrl_server_init [] [] 0 0)).1,
    ((short_datagram_discarded .little (.dgram (List.replicate 10 0) 5 16) (by decide)).2.1
      (ctrl_client_init .little 1 [])).1⟩

/-- Instance of `unknown_command_ignored`: command code 99. -/
theorem unknown_command_ignored_witness :
    (wire_msg 99 0).length = sizeof_nio_cmd
      ∧ (server_read .little (.dgram (wire_msg 99 0) 5 16) (ctrl_server_init [] [] 0 0)).proto
          = (ctrl_server_init [] [] 0 0).proto
      ∧ (client_read .little (.dgram (wire_msg 99 0) 5 16) (ctrl_client_init .little 1 [])).proto
          = (ctrl_client_init .little 1 []).proto :=
  ⟨by decide,
    (unknown_command_ignored .little (wire_msg 99 0) 5 16 (by decide)).1 _
      (Or.inl (by decide)),
    (unknown_command_ignored .little (wire_msg 99 0) 5 16 (by decide)).2 _
      (Or.inl (by decide))⟩

/-- Instance of `wire_round_trip`: the largest 32-bit value, sent by a
little-endian host and read by a big-endian one. -/
theorem wire_round_trip_witness :
    (4294967295 : Nat) < 4294967296
      ∧ CMD_DATA ∈ [CMD_START, CMD_ACK, CMD_STOP, CMD_DATA]
      ∧ store32 .little (htonl .little 4294967295) = [255, 255, 255, 255]
      ∧ ntohl .big (load32 .big (store32 .little (htonl .little 4294967295))) = 4294967295
      ∧ ntohl .big (get_field .big
          (set_field .little (set_field .little memset0 off_cmd (htonl .little CMD_DATA))
            off_threads (htonl .little 0)) off_threads) = 0 :=
  ⟨by decide, by decide,
    (wire_round_trip .little .big 4294967295 CMD_DATA 0 (by decide) (by decide) (by decide)).1,
    (wire_round_trip .little .big 4294967295 CMD_DATA 0 (by decide) (by decide) (by decide)).2.1,
    (wire_round_trip .little .big 4294967295 CMD_DATA 0 (by decide) (by decide)
      (by decide)).2.2.2.2.2.1⟩


/-! ## Where the code departs from the specification -/

/-- A pass of `ctrl_client` that starts in `STATE_STARTED` with nothing
pending and reads `should_stop` set: `select` is called without the socket in
the write set, nothing is sent whatever the socket's readiness, and the pass
ends in `STATE_STARTED` with the `STOP` message pending. -/
theorem client_stop_pass_no_send (e : Endian) (cmd0 recv0 : Buf) (tr : List Call)
    (rd wr stop2 : Bool) (sent : Int) (rcv : RecvEvent) :
    ∃ s2 : Client,
      ctrl_client_body e { stop1 := true, sel := .ok rd wr, sent := sent, stop2 := stop2, rcv := rcv }
          { state := STATE_STARTED, cmd := cmd0, recv_cmd := recv0, cmd_write := false,
            trace := tr } = .running s2
      ∧ s2.state = STATE_STARTED
      ∧ s2.cmd = wire_msg CMD_STOP 0
      ∧ s2.cmd_write = true
      ∧ s2.trace = tr ++ [Call.select false]
          ++ (if rd then [Call.recv (recv_ret rcv)] else []) := by
  cases rd with
  | false =>
    exact ⟨_, by simp [ctrl_client_body, client_stop_check, set_field_cmd]; rfl, rfl, rfl, rfl,
      by simp⟩
  | true =>
    refine ⟨client_read e rcv
      { state := STATE_STARTED, cmd := wire_msg CMD_STOP 0, recv_cmd := recv0,
        cmd_write := true, trace := tr ++ [Call.select false] }, ?_, ?_, ?_, ?_, ?_⟩
    · simp [ctrl_client_body, client_stop_check, set_field_cmd]
    · rw [client_read_state _ _ _ (by simp)]
    · rw [(client_read_cmd _ _ _).1]
    · rw [(client_read_cmd _ _ _).2]
    · rw [client_read_trace]
      simp

/-- C4. Client shutdown takes two passes, not one.  A little-endian client in
`STATE_STARTED` with nothing pending finds `should_stop` set and the socket
writable: the pass calls `select` with the socket absent from the write set,
sends nothing and ends in `STATE_STARTED` with the `STOP` message queued; only
the following pass polls for writability, sends the `STOP` and ends in
`STATE_DYING`. -/
theorem client_stop_needs_second_pass :
    ctrl_client_body .little
        { stop1 := true, sel := .ok false true, sent := 24, stop2 := true, rcv := .fail }
        { state := STATE_STARTED, cmd := wire_msg CMD_START 4, recv_cmd := wire_msg CMD_ACK 0,
          cmd_write := false, trace := [] }
      = .running
        { state := STATE_STARTED, cmd := [0, 0, 0, 3] ++ List.replicate 20 0,
          recv_cmd := wire_msg CMD_ACK 0, cmd_write := true, trace := [Call.select false] }
    ∧ ctrl_client_loop .little
        [ { stop1 := true, sel := .ok false true, sent := 24, stop2 := true, rcv := .fail },
          { stop1 := true, sel := .ok false true, sent := 24, stop2 := true, rcv := .fail } ]
        { state := STATE_STARTED, cmd := wire_msg CMD_START 4, recv_cmd := wire_msg CMD_ACK 0,
          cmd_write := false, trace := [] }
      = .returned
        { state := STATE_DYING, cmd := [0, 0, 0, 3] ++ List.replicate 20 0,
          recv_cmd := wire_msg CMD_ACK 0, cmd_write := false,
          trace := [Call.select false, Call.select true,
                    Call.send ([0, 0, 0, 3] ++ List.replicate 20 0) 24] } := by
  constructor <;> decide

/-- C8. An oversized datagram is parsed, not discarded: `recvfrom`/`recv`
with the 24-byte buffer and flags 0 returns 24 for a 30-byte datagram, so the
size test passes and the command is interpreted.  A 30-byte datagram starting
00 00 00 03 moves the server from `STATE_START` to `STATE_DYING`, one starting
00 00 00 01 queues an `ACK`, and one starting 00 00 00 02 moves the client
from `STATE_START_SENT` to `STATE_STARTED`. -/
theorem oversized_datagram_parsed :
    recv_ret (.dgram ([0, 0, 0, 3] ++ List.replicate 26 0) 5 16) = 24
    ∧ (server_read .little (.dgram ([0, 0, 0, 3] ++ List.replicate 26 0) 5 16)
        (ctrl_server_init (List.replicate 24 0) (List.replicate 24 0) 0 0)).state
        = STATE_DYING
    ∧ (server_read .little (.dgram ([0, 0, 0, 1] ++ List.replicate 26 0) 5 16)
        (ctrl_server_init (List.replicate 24 0) (List.replicate 24 0) 0 0)).cmd_write
        = true
    ∧ (server_read .little (.dgram ([0, 0, 0, 1] ++ List.replicate 26 0) 5 16)
        (ctrl_server_init (List.replicate 24 0) (List.replicate 24 0) 0 0)).cmd
        = [0, 0, 0, 2] ++ List.replicate 20 0
    ∧ (client_read .little (.dgram ([0, 0, 0, 2] ++ List.replicate 26 0) 5 16)
        { state := STATE_START_SENT, cmd := wire_msg CMD_START 4,
          recv_cmd := List.replicate 24 0, cmd_write := false, trace := [] }).state
        = STATE_STARTED := by
  refine ⟨by decide, by decide, by decide, by decide, by decide⟩

/-! ## Runs of ctrl_client -/

theorem client_loop_dying (e : Endian) (envs : List ClientEnv) (s : Client)
    (h : s.state = STATE_DYING) : ctrl_client_loop e envs s = .returned s := by
  cases envs <;> simp [ctrl_client_loop, h]

theorem no_send_after_stop_of_clean (e : Endian) (tr tr2 : List Call)
    (h : no_stop_sent e tr) :
    no_send_after_stop e (tr ++ tr2) ↔ no_send_after_stop e tr2 := by
  induction tr with
  | nil => simp
  | cons c t ih =>
    cases c with
    | send b r =>
      have hb : ¬ is_stop_msg e b := h b (by simp [sent_bufs])
      have ht : no_stop_sent e t := fun x hx => h x (by simp [sent_bufs, hx])
      simp only [is_stop_msg] at hb
      simp only [List.cons_append, no_send_after_stop, hb, if_false]
      exact ih ht
    | sendto b d l r =>
      have ht : no_stop_sent e t := fun x hx => h x (by simp [sent_bufs, hx])
      simpa only [List.cons_append, no_send_after_stop] using ih ht
    | select w =>
      have ht : no_stop_sent e t := fun x hx => h x (by simpa [sent_bufs] using hx)
      simpa only [List.cons_append, no_send_after_stop] using ih ht
    | recvfrom r =>
      have ht : no_stop_sent e t := fun x hx => h x (by simpa [sent_bufs] using hx)
      simpa only [List.cons_append, no_send_after_stop] using ih ht
    | recv r =>
      have ht : no_stop_sent e t := fun x hx => h x (by simpa [sent_bufs] using hx)
      simpa only [List.cons_append, no_send_after_stop] using ih ht

theorem no_send_after_stop_split (e : Endian) (tr : List Call)
    (h : no_send_after_stop e tr) (pre post : List Call) (b : Buf) (r : Int)
    (hsplit : tr = pre ++ Call.send b r :: post) (hb : is_stop_msg e b) :
    sent_bufs post = [] := by
  subst hsplit
  induction pre with
  | nil =>
    simp only [is_stop_msg] at hb
    simpa only [List.nil_append, no_send_after_stop, hb, if_true] using h
  | cons c t ih =>
    cases c with
    | send b2 r2 =>
      simp only [List.cons_append, no_send_after_stop] at h
      split_ifs at h with h2
      · have h3 : sent_bufs (t ++ Call.send b r :: post) = [] := h
        rw [sent_bufs_append] at h3
        simp [sent_bufs] at h3
      · exact ih h
    | sendto b2 d l r2 => exact ih (by simpa only [List.cons_append, no_send_after_stop] using h)
    | select w => exact ih (by simpa only [List.cons_append, no_send_after_stop] using h)
    | recvfrom r2 => exact ih (by simpa only [List.cons_append, no_send_after_stop] using h)
    | recv r2 => exact ih (by simpa only [List.cons_append, no_send_after_stop] using h)

theorem no_stop_sent_append (e : Endian) (a b : List Call) :
    no_stop_sent e (a ++ b) ↔ no_stop_sent e a ∧ no_stop_sent e b := by
  simp only [no_stop_sent, sent_bufs_append, List.mem_append]
  constructor
  · intro h
    exact ⟨fun x hx => h x (Or.inl hx), fun x hx => h x (Or.inr hx)⟩
  · rintro ⟨h1, h2⟩ x (hx | hx)
    · exact h1 x hx
    · exact h2 x hx

theorem no_send_after_stop_of_no_stop (e : Endian) (tr : List Call)
    (h : no_stop_sent e tr) : no_send_after_stop e tr := by
  have := (no_send_after_stop_of_clean e tr [] h).2 trivial
  simpa using this

theorem client_write_exit (sent : Int) (stop2 : Bool) (s : Client)
    (h : sent ≠ (sizeof_nio_cmd : Int)) :
    client_write sent stop2 s = .exited { s with trace := s.trace ++ [Call.send s.cmd sent] } := by
  simp [client_write, h]

theorem client_read_dying (e : Endian) (r : RecvEvent) (s : Client)
    (h : s.state = STATE_DYING) : (client_read e r s).state = STATE_DYING := by
  rw [client_read_state e r s (by simp [h])]
  exact h

/-- One pass of the client keeps the bookkeeping behind `no_send_after_stop`:
while no `STOP` was sent and a pending `STOP` implies that every later flag
read is set, the pass either still has sent no `STOP`, or has just sent it
and is in `STATE_DYING`. -/
theorem client_body_stop_inv (e : Endian) (env : ClientEnv) (s : Client) (F : List Bool)
    (hmono : never_reset (env.stop1 :: env.stop2 :: F))
    (hcmd : is_stop_msg e s.cmd → env.stop1 = true)
    (hclean : no_stop_sent e s.trace) :
    no_send_after_stop e (ctrl_client_body e env s).vars.trace
      ∧ ∀ s2, ctrl_client_body e env s = .running s2 →
          (is_stop_msg e s2.cmd → ∀ f ∈ F, f = true)
            ∧ (no_stop_sent e s2.trace ∨ s2.state = STATE_DYING) := by
  obtain ⟨stop1, sel, sent, stop2, rcv⟩ := env
  simp only at hmono hcmd
  simp only [never_reset, List.pairwise_cons, List.mem_cons] at hmono
  obtain ⟨h1, h2, -⟩ := hmono
  -- the pending message after the `should_stop` block
  have hc : is_stop_msg e (client_stop_check e stop1 s).cmd →
      stop2 = true ∧ ∀ f ∈ F, f = true := by
    intro hs
    have hs1 : stop1 = true := by
      cases stop1 with
      | true => rfl
      | false => exact hcmd (by simpa [client_stop_check] using hs)
    exact ⟨h1 stop2 (Or.inl rfl) hs1, fun f hf => h1 f (Or.inr hf) hs1⟩
  have htr : (client_stop_check e stop1 s).trace = s.trace := by
    cases stop1 <;> rfl
  have hsel : ∀ w, no_stop_sent e ((client_stop_check e stop1 s).trace ++ [Call.select w]) := by
    intro w
    rw [htr, no_stop_sent_append]
    exact ⟨hclean, by simp [no_stop_sent, sent_bufs]⟩
  have hrecv : ∀ x, no_stop_sent e [Call.recv x] := by
    intro x
    simp [no_stop_sent, sent_bufs]
  simp only [ctrl_client_body]
  generalize client_stop_check e stop1 s = c at hc hsel ⊢
  cases sel with
  | eintr =>
    refine ⟨no_send_after_stop_of_no_stop e _ (hsel _), ?_⟩
    intro s2 hs2
    simp only [Outcome.running.injEq] at hs2
    subst hs2
    exact ⟨fun hs => (hc hs).2, Or.inl (hsel _)⟩
  | error =>
    refine ⟨no_send_after_stop_of_no_stop e _ (hsel _), ?_⟩
    intro s2 hs2
    simp at hs2
  | ok rd wr =>
    have hsendtr : ∀ (x : Int) (tl : List Call), sent_bufs tl = [] →
        no_send_after_stop e ((c.trace ++ [Call.select s.cmd_write]) ++ (Call.send c.cmd x :: tl)) := by
      intro x tl htl
      rw [no_send_after_stop_of_clean e _ _ (hsel _)]
      simp only [no_send_after_stop]
      split_ifs
      · exact htl
      · exact no_send_after_stop_of_no_stop e tl (by simp [no_stop_sent, htl])
    by_cases hw : (s.cmd_write && wr) = true
    · by_cases hsent : sent = (sizeof_nio_cmd : Int)
      · subst hsent
        simp only [hw, if_true, client_write_ok]
        cases rd with
        | false =>
          simp only [Bool.false_eq_true, if_false, Outcome.vars, Outcome.running.injEq]
          refine ⟨by simpa using hsendtr _ [] rfl, ?_⟩
          intro s2 hs2
          subst hs2
          refine ⟨fun hs => (hc hs).2, ?_⟩
          by_cases hstop : is_stop_msg e c.cmd
          · right
            simp [(hc hstop).1]
          · left
            show no_stop_sent e ((c.trace ++ [Call.select s.cmd_write]) ++ [Call.send c.cmd _])
            rw [no_stop_sent_append]
            exact ⟨hsel _, by simpa [no_stop_sent, sent_bufs] using hstop⟩
        | true =>
          simp only [if_true, Outcome.vars, Outcome.running.injEq]
          refine ⟨?_, ?_⟩
          · rw [client_read_trace]
            simpa using hsendtr _ [Call.recv (recv_ret rcv)] rfl
          · intro s2 hs2
            subst hs2
            refine ⟨fun hs => (hc (by rwa [(client_read_cmd _ _ _).1] at hs)).2, ?_⟩
            by_cases hstop : is_stop_msg e c.cmd
            · right
              exact client_read_dying e rcv _ (by simp [(hc hstop).1])
            · left
              rw [client_read_trace]
              show no_stop_sent e (((c.trace ++ [Call.select s.cmd_write])
                ++ [Call.send c.cmd _]) ++ [Call.recv (recv_ret rcv)])
              rw [no_stop_sent_append, no_stop_sent_append]
              exact ⟨⟨hsel _, by simpa [no_stop_sent, sent_bufs] using hstop⟩, hrecv _⟩
      · simp only [hw, if_true, client_write_exit _ _ _ hsent, Outcome.vars]
        refine ⟨by simpa using hsendtr _ [] rfl, ?_⟩
        intro s2 hs2
        simp at hs2
    · simp only [hw, Bool.false_eq_true, if_false]
      cases rd with
      | false =>
        simp only [Bool.false_eq_true, if_false, Outcome.vars, Outcome.running.injEq]
        refine ⟨no_send_after_stop_of_no_stop e _ (hsel _), ?_⟩
        intro s2 hs2
        subst hs2
        exact ⟨fun hs => (hc hs).2, Or.inl (hsel _)⟩
      | true =>
        simp only [if_true, Outcome.vars, Outcome.running.injEq]
        have hcl : no_stop_sent e
            (client_read e rcv
              { c with trace := c.trace ++ [Call.select s.cmd_write] }).trace := by
          rw [client_read_trace, no_stop_sent_append]
          exact ⟨hsel _, hrecv _⟩
        refine ⟨no_send_after_stop_of_no_stop e _ hcl, ?_⟩
        intro s2 hs2
        subst hs2
        exact ⟨fun hs => (hc (by rwa [(client_read_cmd _ _ _).1] at hs)).2, Or.inl hcl⟩

theorem client_loop_stop_inv (e : Endian) (envs : List ClientEnv) (s : Client)
    (hmono : never_reset (stop_reads envs))
    (hcmd : is_stop_msg e s.cmd → ∀ f ∈ stop_reads envs, f = true)
    (hnsas : no_send_after_stop e s.trace)
    (hst : no_stop_sent e s.trace ∨ s.state = STATE_DYING) :
    no_send_after_stop e (ctrl_client_loop e envs s).vars.trace
      ∧ ((∃ s2, ctrl_client_loop e envs s = .exited s2)
          ∨ no_stop_sent e (ctrl_client_loop e envs s).vars.trace
          ∨ (ctrl_client_loop e envs s).vars.state = STATE_DYING) := by
  induction envs generalizing s with
  | nil =>
    simp only [ctrl_client_loop]
    split_ifs with hd
    · exact ⟨hnsas, Or.inr (Or.inr hd)⟩
    · exact ⟨hnsas, Or.inr (hst.imp id id)⟩
  | cons env rest ih =>
    simp only [ctrl_client_loop]
    split_ifs with hd
    · exact ⟨hnsas, Or.inr (Or.inr hd)⟩
    · have hclean : no_stop_sent e s.trace := hst.resolve_right hd
      have hm : never_reset (env.stop1 :: env.stop2 :: stop_reads rest) := hmono
      have hrest : never_reset (stop_reads rest) := by
        simp only [never_reset, List.pairwise_cons] at hm
        exact hm.2.2
      have hb := client_body_stop_inv e env s (stop_reads rest) hm
        (fun hs => hcmd hs env.stop1 (by simp [stop_reads])) hclean
      cases hbody : ctrl_client_body e env s with
      | running s1 =>
        rw [hbody] at hb
        have h2 := hb.2 s1 rfl
        exact ih s1 hrest h2.1 hb.1 h2.2
      | returned s1 =>
        rw [hbody] at hb
        obtain ⟨stop1, sel, sent, stop2, rcv⟩ := env
        exfalso
        revert hbody
        simp only [ctrl_client_body, client_write]
        cases sel <;> simp
        split_ifs <;> simp
      | exited s1 =>
        rw [hbody] at hb
        exact ⟨hb.1, Or.inl ⟨s1, rfl⟩⟩

/-- C11. Nothing is sent after STOP: in every run of `ctrl_client` from its
initial variables in which `should_stop`, once read set, is read set at every
later read, a `send` of a message whose command is `STOP` is followed by no
further send.  Unless that send failed (and the process exited), the state is
`STATE_DYING` from then on; a send that returns 24 while the flag reads set
puts the state to `STATE_DYING` at once, and in `STATE_DYING` the loop test
fails, so the loop returns without a further call. -/
theorem client_nothing_after_stop (e : Endian) (t : Int) (recv0 : Buf)
    (envs : List ClientEnv) (hflag : never_reset (stop_reads envs)) :
    (∀ (pre post : List Call) (b : Buf) (r : Int),
        (ctrl_client_loop e envs (ctrl_client_init e t recv0)).vars.trace
            = pre ++ Call.send b r :: post →
        ntohl e (get_field e b off_cmd) = CMD_STOP →
        sent_bufs post = []
          ∧ ((∃ s2, ctrl_client_loop e envs (ctrl_client_init e t recv0) = .exited s2)
              ∨ (ctrl_client_loop e envs (ctrl_client_init e t recv0)).vars.state
                  = STATE_DYING))
      ∧ (∀ s : Client, ∃ s2 : Client,
          client_write (sizeof_nio_cmd : Int) true s = .running s2
            ∧ s2.state = STATE_DYING
            ∧ s2.trace = s.trace ++ [Call.send s.cmd 24])
      ∧ (∀ (s : Client) (more : List ClientEnv), s.state = STATE_DYING →
          ctrl_client_loop e more s = .returned s) := by
  have hinit : ¬ is_stop_msg e (ctrl_client_init e t recv0).cmd := by
    rw [client_init_cmd]
    simp only [is_stop_msg, get_field, off_cmd, List.drop_zero, wire_msg, List.append_assoc]
    rw [ntohl_load32_be e CMD_START (by decide)]
    decide
  have h := client_loop_stop_inv e envs (ctrl_client_init e t recv0) hflag
    (fun hs => absurd hs hinit) trivial (Or.inl (by simp [no_stop_sent, ctrl_client_init, sent_bufs]))
  refine ⟨?_, ?_, ?_⟩
  · intro pre post b r hsplit hb
    refine ⟨no_send_after_stop_split e _ h.1 pre post b r hsplit hb, ?_⟩
    rcases h.2 with hex | hclean | hd
    · exact Or.inl hex
    · exfalso
      refine hclean b ?_ hb
      rw [hsplit, sent_bufs_append]
      simp [sent_bufs]
    · exact Or.inr hd
  · intro s
    rw [client_write_ok]
    exact ⟨_, rfl, rfl, rfl⟩
  · intro s more hs
    exact client_loop_dying e more s hs

/-! ## The server speaks only when spoken to -/

theorem server_read_fail (e : Endian) (s : Server) :
    server_read e .fail s
      = { s with r_len := sizeof_sockaddr, trace := s.trace ++ [Call.recvfrom (-1)] } := by
  simp [server_read, recv_ret, sizeof_nio_cmd]

theorem server_read_short_dgram (e : Endian) (p : Buf) (src : Addr) (l : Nat) (s : Server)
    (h : p.length < sizeof_nio_cmd) :
    server_read e (.dgram p src l) s = s.received p src l := by
  simp [server_read, recv_ret_short p src l h, Server.received]

theorem server_read_cmd_write (e : Endian) (r : RecvEvent) (s : Server)
    (h : ¬ is_start e r) : (server_read e r s).cmd_write = s.cmd_write := by
  cases r with
  | fail => rw [server_read_fail]
  | dgram p src l =>
    by_cases hp : sizeof_nio_cmd ≤ p.length
    · have hc : ntohl e (get_field e p off_cmd) ≠ CMD_START :=
        fun hc => h ⟨p, src, l, rfl, hp, hc⟩
      rw [server_read_full e p src l s hp]
      simp only [hc, if_false]
      split_ifs <;> rfl
    · rw [server_read_short_dgram e p src l s (Nat.lt_of_not_le hp)]
      rfl

theorem server_body_silent (e : Endian) (env : ServerEnv) (s : Server)
    (hw : s.cmd_write = false)
    (hr : ∀ wr, env.sel = .ok true wr → ¬ is_start e env.rcv) :
    (ctrl_server_body e env s).vars.cmd_write = false
      ∧ sent_bufs (ctrl_server_body e env s).vars.trace = sent_bufs s.trace := by
  obtain ⟨sel, stop, sent, rcv⟩ := env
  simp only at hr
  cases sel with
  | eintr => simp [ctrl_server_body, Outcome.vars, hw, sent_bufs_append, sent_bufs]
  | error => simp [ctrl_server_body, Outcome.vars, hw, sent_bufs_append, sent_bufs]
  | ok rd wr =>
    cases stop with
    | true => simp [ctrl_server_body, Outcome.vars, hw, sent_bufs_append, sent_bufs]
    | false =>
      cases rd with
      | false => simp [ctrl_server_body, Outcome.vars, hw, sent_bufs_append, sent_bufs]
      | true =>
        simp only [ctrl_server_body, hw, Bool.false_and, Bool.false_eq_true, if_false, if_true,
          Outcome.vars]
        refine ⟨?_, ?_⟩
        · rw [server_read_cmd_write e rcv _ (hr wr rfl)]
        · simp [server_read_trace, sent_bufs_append, sent_bufs]

theorem server_loop_silent (e : Endian) (envs : List ServerEnv) (s : Server)
    (hw : s.cmd_write = false)
    (hr : ∀ env ∈ envs, ∀ wr, env.sel = .ok true wr → ¬ is_start e env.rcv) :
    sent_bufs (ctrl_server_loop e envs s).vars.trace = sent_bufs s.trace := by
  induction envs generalizing s with
  | nil =>
    simp only [ctrl_server_loop]
    split_ifs <;> rfl
  | cons env rest ih =>
    simp only [ctrl_server_loop]
    split_ifs
    · rfl
    · have hb := server_body_silent e env s hw (hr env (List.mem_cons_self _ _))
      cases hbody : ctrl_server_body e env s with
      | running s1 =>
        rw [hbody] at hb
        simp only [Outcome.vars] at hb
        rw [ih s1 hb.1 (fun x hx => hr x (List.mem_cons_of_mem _ hx)), hb.2]
      | returned s1 =>
        rw [hbody] at hb
        exact hb.2
      | exited s1 =>
        rw [hbody] at hb
        exact hb.2

theorem server_read_pending_ack (e : Endian) (r : RecvEvent) (s : Server)
    (h : s.cmd_write = true → s.cmd = wire_msg CMD_ACK 0) :
    (server_read e r s).cmd_write = true → (server_read e r s).cmd = wire_msg CMD_ACK 0 := by
  cases r with
  | fail =>
    rw [server_read_fail]
    exact h
  | dgram p src l =>
    by_cases hp : sizeof_nio_cmd ≤ p.length
    · rw [server_read_full e p src l s hp]
      split_ifs
      · exact h
      · intro _
        rfl
      · exact h
      · exact h
    · rw [server_read_short_dgram e p src l s (Nat.lt_of_not_le hp)]
      exact h

theorem server_body_sends_ack (e : Endian) (env : ServerEnv) (s : Server)
    (hc : s.cmd_write = true → s.cmd = wire_msg CMD_ACK 0)
    (hs : ∀ b ∈ sent_bufs s.trace, b = wire_msg CMD_ACK 0) :
    ((ctrl_server_body e env s).vars.cmd_write = true →
        (ctrl_server_body e env s).vars.cmd = wire_msg CMD_ACK 0)
      ∧ ∀ b ∈ sent_bufs (ctrl_server_body e env s).vars.trace, b = wire_msg CMD_ACK 0 := by
  obtain ⟨sel, stop, sent, rcv⟩ := env
  have hsel : ∀ b ∈ sent_bufs (s.trace ++ [Call.select s.cmd_write]), b = wire_msg CMD_ACK 0 := by
    simpa [sent_bufs_append, sent_bufs] using hs
  cases sel with
  | eintr => exact ⟨hc, hsel⟩
  | error => exact ⟨hc, hsel⟩
  | ok rd wr =>
    cases stop with
    | true => exact ⟨hc, hsel⟩
    | false =>
      simp only [ctrl_server_body, Bool.false_eq_true, if_false]
      -- the write block
      have hw : ∀ o, o = (if (s.cmd_write && wr) = true then
              server_write sent { s with trace := s.trace ++ [Call.select s.cmd_write] }
            else .running { s with trace := s.trace ++ [Call.select s.cmd_write] }) →
          (o.vars.cmd_write = true → o.vars.cmd = wire_msg CMD_ACK 0)
            ∧ ∀ b ∈ sent_bufs o.vars.trace, b = wire_msg CMD_ACK 0 := by
        intro o ho
        subst ho
        by_cases hcw : (s.cmd_write && wr) = true
        · have hcw1 : s.cmd_write = true := by
            simp only [Bool.and_eq_true] at hcw
            exact hcw.1
          have hsend : ∀ x, ∀ b ∈ sent_bufs ((s.trace ++ [Call.select s.cmd_write])
              ++ [Call.sendto s.cmd s.remote s.r_len x]), b = wire_msg CMD_ACK 0 := by
            intro x b hb
            rw [sent_bufs_append] at hb
            simp only [sent_bufs, List.mem_append, List.mem_singleton] at hb
            rcases hb with hb | hb
            · exact hsel b hb
            · rw [hb]
              exact hc hcw1
          rw [if_pos hcw]
          simp only [server_write]
          split_ifs
          · exact ⟨hc, hsend _⟩
          · exact ⟨fun _ => hc hcw1, hsend _⟩
          · exact ⟨hc, hsel⟩
        · rw [if_neg hcw]
          exact ⟨hc, hsel⟩
      have hw2 := hw _ rfl
      revert hw2
      generalize (if (s.cmd_write && wr) = true then
              server_write sent { s with trace := s.trace ++ [Call.select s.cmd_write] }
            else Outcome.running { s with trace := s.trace ++ [Call.select s.cmd_write] }) = o
      intro hw2
      cases o with
      | running s2 =>
        simp only [Outcome.vars] at hw2 ⊢
        cases rd with
        | false => simpa using hw2
        | true =>
          simp only [if_true]
          refine ⟨server_read_pending_ack e rcv s2 hw2.1, ?_⟩
          rw [server_read_trace, sent_bufs_append]
          simpa [sent_bufs] using hw2.2
      | returned s2 => exact hw2
      | exited s2 => exact hw2

theorem server_loop_sends_ack (e : Endian) (envs : List ServerEnv) (s : Server)
    (hc : s.cmd_write = true → s.cmd = wire_msg CMD_ACK 0)
    (hs : ∀ b ∈ sent_bufs s.trace, b = wire_msg CMD_ACK 0) :
    ∀ b ∈ sent_bufs (ctrl_server_loop e envs s).vars.trace, b = wire_msg CMD_ACK 0 := by
  induction envs generalizing s with
  | nil =>
    simp only [ctrl_server_loop]
    split_ifs <;> exact hs
  | cons env rest ih =>
    simp only [ctrl_server_loop]
    split_ifs
    · exact hs
    · have hb := server_body_sends_ack e env s hc hs
      revert hb
      cases ctrl_server_body e env s with
      | running s1 =>
        intro hb
        exact ih s1 hb.1 hb.2
      | returned s1 =>
        intro hb
        exact hb.2
      | exited s1 =>
        intro hb
        exact hb.2

/-- In every run of `ctrl_server` from its initial variables, as long as no
pass has read a full message (`recvfrom` returning 24 bytes) whose command
decodes to `START`, nothing has been handed to `sendto`; and every buffer
handed to `sendto` is the `ACK` message. -/
theorem server_silent_until_start (e : Endian) (cmd0 recv0 : Buf) (remote0 : Addr)
    (r_len0 : Nat) (envs : List ServerEnv) :
    ((∀ env ∈ envs, ∀ wr, env.sel = .ok true wr → ¬ is_start e env.rcv) →
        sent_bufs (ctrl_server_loop e envs (ctrl_server_init cmd0 recv0 remote0 r_len0)).vars.trace
          = [])
      ∧ (∀ b ∈ sent_bufs
            (ctrl_server_loop e envs (ctrl_server_init cmd0 recv0 remote0 r_len0)).vars.trace,
          b = [0, 0, 0, 2] ++ List.replicate 20 0) := by
  refine ⟨?_, ?_⟩
  · intro h
    exact server_loop_silent e envs _ rfl h
  · have hack : wire_msg CMD_ACK 0 = [0, 0, 0, 2] ++ List.replicate 20 0 := by decide
    rw [← hack]
    exact server_loop_sends_ack e envs _ (fun h => by simp [ctrl_server_init] at h)
      (by simp [ctrl_server_init, sent_bufs])

/-- C12 fails for an oversized `START`, by the defect of C8.  The only
datagram the server receives has 30 bytes, starting 00 00 00 01: `recvfrom`
copies 24 of them and returns 24, the `ACK` is queued and, in the next pass,
sent.  A datagram is sent although no 24-byte datagram has been received. -/
theorem ack_after_oversized_start :
    ctrl_server_loop .little
        [ { sel := .ok true false, stop := false, sent := 24,
            rcv := .dgram ([0, 0, 0, 1] ++ List.replicate 26 0) 77 16 },
          { sel := .ok false true, stop := false, sent := 24, rcv := .fail } ]
        (ctrl_server_init (List.replicate 24 0) (List.replicate 24 0) 0 0)
      = .running
        { state := STATE_STARTED, cmd := wire_msg CMD_ACK 0,
          recv_cmd := [0, 0, 0, 1] ++ List.replicate 20 0, remote := 77, r_len := 16,
          cmd_write := false,
          trace := [Call.select false, Call.recvfrom 24, Call.select true,
                    Call.sendto (wire_msg CMD_ACK 0) 77 16 24] }
    ∧ ([0, 0, 0, 1] ++ List.replicate 26 0 : Buf).length = 30 := by
  refine ⟨by decide, by decide⟩

/-! ## Failing sends and receives -/

theorem server_write_exit (sent : Int) (s : Server) (hs : s.state = STATE_START)
    (h : sent ≠ (sizeof_nio_cmd : Int)) :
    server_write sent s
      = .exited { s with trace := s.trace ++ [Call.sendto s.cmd s.remote s.r_len sent] } := by
  simp [server_write, hs, h]

/-- C13. Short writes are fatal: when the `sendto` of the server's write block
or the `send` of the client's returns anything but 24, the block ends in
`exit(EXIT_FAILURE)` with a single send call made and with state and
`cmd_write` as before the call; the run ends there, whatever input would
follow.  When the call returns 24 the block goes on to the rest of the pass. -/
theorem short_write_fatal (e : Endian) :
    (∀ (s : Server) (sent : Int), s.state = STATE_START → sent ≠ (sizeof_nio_cmd : Int) →
        server_write sent s
          = .exited { s with trace := s.trace ++ [Call.sendto s.cmd s.remote s.r_len sent] })
      ∧ (∀ (s : Client) (sent : Int) (stop2 : Bool), sent ≠ (sizeof_nio_cmd : Int) →
        client_write sent stop2 s
          = .exited { s with trace := s.trace ++ [Call.send s.cmd sent] })
      ∧ (∀ (s : Server) (sent : Int) (rd : Bool) (rcv : RecvEvent) (rest : List ServerEnv),
        s.state = STATE_START → s.cmd_write = true → sent ≠ (sizeof_nio_cmd : Int) →
        ctrl_server_loop e ({ sel := .ok rd true, stop := false, sent := sent, rcv := rcv } :: rest) s
          = .exited { s with trace := s.trace
              ++ [Call.select true, Call.sendto s.cmd s.remote s.r_len sent] })
      ∧ (∀ (s : Client) (sent : Int) (rd stop2 : Bool) (rcv : RecvEvent) (rest : List ClientEnv),
        s.state ≠ STATE_DYING → s.cmd_write = true → sent ≠ (sizeof_nio_cmd : Int) →
        ctrl_client_loop e
            ({ stop1 := false, sel := .ok rd true, sent := sent, stop2 := stop2, rcv := rcv }
              :: rest) s
          = .exited { s with trace := s.trace ++ [Call.select true, Call.send s.cmd sent] })
      ∧ (∀ s : Server, s.state = STATE_START → ∃ s2 : Server,
        server_write (sizeof_nio_cmd : Int) s = .running s2)
      ∧ (∀ (s : Client) (stop2 : Bool), ∃ s2 : Client,
        client_write (sizeof_nio_cmd : Int) stop2 s = .running s2) := by
  refine ⟨fun s sent hs h => server_write_exit sent s hs h,
    fun s sent stop2 h => client_write_exit sent stop2 s h, ?_, ?_, ?_, ?_⟩
  · intro s sent rd rcv rest hs hw h
    have hnd : s.state ≠ STATE_DYING := by simp [hs]
    simp [ctrl_server_loop, hnd, ctrl_server_body, hw, server_write, hs, h]
  · intro s sent rd stop2 rcv rest hs hw h
    simp [ctrl_client_loop, hs, ctrl_client_body, client_stop_check, hw, client_write, h]
  · intro s hs
    exact ⟨_, server_write_ok s hs⟩
  · intro s stop2
    exact ⟨_, client_write_ok stop2 s⟩

/-- Instance of `short_write_fatal`: the client's first `send` returns 10. -/
theorem short_write_fatal_witness :
    ctrl_client_loop .little
        [ { stop1 := false, sel := .ok true true, sent := 10, stop2 := false, rcv := .fail } ]
        (ctrl_client_init .little 1 [])
      = .exited { ctrl_client_init .little 1 [] with
          trace := (ctrl_client_init .little 1 []).trace
            ++ [Call.select true, Call.send (ctrl_client_init .little 1 []).cmd 10] } :=
  (short_write_fatal .little).2.2.2.1 (ctrl_client_init .little 1 []) 10 true false .fail []
    (by decide) rfl (by decide)

/-- C14 fails for sends: a `send`/`sendto` that returns -1 after `select`
reported the socket writable ends the process.  The client's first pass and a
server pass with the `ACK` pending both end in `exit(EXIT_FAILURE)`. -/
theorem send_would_block_exits :
    ctrl_client_body .little
        { stop1 := false, sel := .ok false true, sent := -1, stop2 := false, rcv := .fail }
        (ctrl_client_init .little 1 [])
      = .exited
        { state := STATE_START, cmd := wire_msg CMD_START 1, recv_cmd := [], cmd_write := true,
          trace := [Call.select true, Call.send (wire_msg CMD_START 1) (-1)] }
    ∧ ctrl_server_body .little
        { sel := .ok false true, stop := false, sent := -1, rcv := .fail }
        { state := STATE_START, cmd := wire_msg CMD_ACK 0, recv_cmd := wire_msg CMD_START 1,
          remote := 77, r_len := 16, cmd_write := true, trace := [] }
      = .exited
        { state := STATE_START, cmd := wire_msg CMD_ACK 0, recv_cmd := wire_msg CMD_START 1,
          remote := 77, r_len := 16, cmd_write := true,
          trace := [Call.select true, Call.sendto (wire_msg CMD_ACK 0) 77 16 (-1)] } := by
  constructor <;> decide

/-- C14, amended. A receive that returns -1 is a no-op in both roles: state,
`cmd` and `cmd_write` are kept, the pass ends with the loop running, and a
later pass in which the socket is readable calls the receive again.  A send
that returns -1 is not: like any return value other than 24 it ends the
process with `exit(EXIT_FAILURE)`, state and `cmd_write` untouched. -/
theorem would_block_recv_noop_send_fatal (e : Endian) :
    (∀ s : Server, (server_read e .fail s).proto = s.proto
        ∧ (server_read e .fail s).trace = s.trace ++ [Call.recvfrom (-1)])
      ∧ (∀ s : Client, (client_read e .fail s).proto = s.proto
        ∧ (client_read e .fail s).trace = s.trace ++ [Call.recv (-1)])
      ∧ (∀ (s : Server) (sent1 sent2 : Int), s.state ≠ STATE_DYING →
          ∃ s2 : Server,
            ctrl_server_loop e
                [ { sel := .ok true false, stop := false, sent := sent1, rcv := .fail },
                  { sel := .ok true false, stop := false, sent := sent2, rcv := .fail } ] s
              = .running s2
            ∧ s2.proto = s.proto
            ∧ s2.trace = s.trace ++ [Call.select s.cmd_write, Call.recvfrom (-1),
                Call.select s.cmd_write, Call.recvfrom (-1)])
      ∧ (∀ (s : Client) (sent1 sent2 : Int) (a b : Bool), s.state ≠ STATE_DYING →
          ∃ s2 : Client,
            ctrl_client_loop e
                [ { stop1 := false, sel := .ok true false, sent := sent1, stop2 := a, rcv := .fail },
                  { stop1 := false, sel := .ok true false, sent := sent2, stop2 := b, rcv := .fail } ]
                s
              = .running s2
            ∧ s2.proto = s.proto
            ∧ s2.trace = s.trace ++ [Call.select s.cmd_write, Call.recv (-1),
                Call.select s.cmd_write, Call.recv (-1)])
      ∧ (∀ s : Server, s.state = STATE_START →
          server_write (-1) s
            = .exited { s with trace := s.trace ++ [Call.sendto s.cmd s.remote s.r_len (-1)] })
      ∧ (∀ (s : Client) (stop2 : Bool),
          client_write (-1) stop2 s
            = .exited { s with trace := s.trace ++ [Call.send s.cmd (-1)] }) := by
  have hne : (-1 : Int) ≠ (sizeof_nio_cmd : Int) := by decide
  refine ⟨?_, ?_, ?_, ?_, fun s hs => server_write_exit (-1) s hs hne,
    fun s stop2 => client_write_exit (-1) stop2 s hne⟩
  · intro s
    rw [server_read_fail]
    exact ⟨rfl, rfl⟩
  · intro s
    rw [client_read_wrong_size e .fail s hne]
    exact ⟨rfl, rfl⟩
  · intro s sent1 sent2 hs
    refine ⟨{ s with r_len := sizeof_sockaddr,
                     trace := s.trace ++ [Call.select s.cmd_write, Call.recvfrom (-1),
                       Call.select s.cmd_write, Call.recvfrom (-1)] }, ?_, rfl, rfl⟩
    simp [ctrl_server_loop, hs, ctrl_server_body, server_read_fail]
  · intro s sent1 sent2 a b hs
    refine ⟨{ s with trace := s.trace ++ [Call.select s.cmd_write, Call.recv (-1),
                       Call.select s.cmd_write, Call.recv (-1)] }, ?_, rfl, rfl⟩
    simp [ctrl_client_loop, hs, ctrl_client_body, client_stop_check,
      client_read_wrong_size e .fail _ hne, Client.received, recv_ret, recv_buf]

/-! ## The socket resolver -/

theorem foldl_family (l : List addrinfo) (a : Int) :
    l.foldl (fun a rp => if rp.ai_family = AF_INET6 then AF_INET6 else a) a
      = if ∃ rp ∈ l, rp.ai_family = AF_INET6 then AF_INET6 else a := by
  induction l generalizing a with
  | nil => simp
  | cons c t ih =>
    rw [List.foldl_cons, ih]
    by_cases hc : c.ai_family = AF_INET6
    · simp [hc]
    · simp [hc]

theorem socket_loop_family (af : Int) (hn : Bool) (l : List addrinfo) :
    ∀ (k : Nat) (fd : Int) (i : Nat) (ret : Int),
      SockCall.socket i ret ∈ (socket_loop af hn k fd l).2 →
      k ≤ i ∧ ∃ rp, l[i - k]? = some rp ∧ rp.ai_family = af ∧ ret = socket_ret rp := by
  induction l with
  | nil =>
    intro k fd i ret h
    simp [socket_loop] at h
  | cons c t ih =>
    intro k fd i ret h
    have hrest : ∀ fd1, SockCall.socket i ret ∈ (socket_loop af hn (k + 1) fd1 t).2 →
        k ≤ i ∧ ∃ rp, (c :: t)[i - k]? = some rp ∧ rp.ai_family = af ∧ ret = socket_ret rp := by
      intro fd1 h1
      obtain ⟨hk, rp, hrp, hfam⟩ := ih (k + 1) fd1 i ret h1
      refine ⟨by omega, rp, ?_, hfam⟩
      have : i - k = (i - (k + 1)) + 1 := by omega
      rw [this, List.getElem?_cons_succ]
      exact hrp
    have hhead : c.ai_family = af → i = k → ret = socket_ret c →
        k ≤ i ∧ ∃ rp, (c :: t)[i - k]? = some rp ∧ rp.ai_family = af ∧ ret = socket_ret rp := by
      intro hf hi hr
      subst hi
      exact ⟨le_refl _, c, by simp, hf, hr⟩
    simp only [socket_loop] at h
    split_ifs at h with h1 h2 h3 h4 h5
    · exact hrest _ h
    · simp only [List.mem_cons, SockCall.socket.injEq] at h
      rcases h with ⟨hi, hr⟩ | h
      · exact hhead (not_not.mp h1) hi hr
      · exact hrest _ h
    · simp only [List.mem_cons, SockCall.socket.injEq, List.mem_singleton] at h
      rcases h with ⟨hi, hr⟩ | h
      · exact hhead (not_not.mp h1) hi hr
      · simp at h
    · simp only [List.mem_cons, SockCall.socket.injEq] at h
      rcases h with ⟨hi, hr⟩ | h | h | h
      · exact hhead (not_not.mp h1) hi hr
      · simp at h
      · simp at h
      · exact hrest _ h
    · simp only [List.mem_cons, SockCall.socket.injEq, List.mem_singleton] at h
      rcases h with ⟨hi, hr⟩ | h
      · exact hhead (not_not.mp h1) hi hr
      · simp at h
    · simp only [List.mem_cons, SockCall.socket.injEq] at h
      rcases h with ⟨hi, hr⟩ | h | h | h
      · exact hhead (not_not.mp h1) hi hr
      · simp at h
      · simp at h
      · exact hrest _ h

/-- C15. Resolver family preference: for a non-empty candidate list, with the
hint `AF_UNSPEC` the family `create_socket` filters on is `AF_INET6` when some
candidate, at whatever position, is IPv6, and `AF_INET` otherwise; with the
hint `AF_INET` or `AF_INET6` it is the hint.  Every candidate `create_socket`
opens a socket for has that family. -/
theorem resolver_family_preference (af : Int) (hostname : Option Nat)
    (results : List addrinfo) (hne : results ≠ []) :
    (af = AF_UNSPEC → (∃ rp ∈ results, rp.ai_family = AF_INET6) →
        choose_family af results = AF_INET6)
      ∧ (af = AF_UNSPEC → (¬ ∃ rp ∈ results, rp.ai_family = AF_INET6) →
        choose_family af results = AF_INET)
      ∧ (af = AF_INET ∨ af = AF_INET6 → choose_family af results = af)
      ∧ (∀ (i : Nat) (ret : Int),
          SockCall.socket i ret ∈ (create_socket af hostname 0 results).2 →
          ∃ rp, results[i]? = some rp ∧ rp.ai_family = choose_family af results) := by
  refine ⟨?_, ?_, ?_, ?_⟩
  · intro h6 hex
    simp only [choose_family, h6, if_true, foldl_family, hex]
  · intro h6 hex
    simp only [choose_family, h6, if_true, foldl_family, hex, if_false]
  · intro h
    have : af ≠ AF_UNSPEC := by
      rcases h with h | h <;> rw [h] <;> decide
    simp [choose_family, this]
  · intro i ret h
    have hemp : results.isEmpty = false := by
      cases results with
      | nil => exact absurd rfl hne
      | cons c t => rfl
    simp only [create_socket, ne_eq, not_true_eq_false, if_false, hemp, Bool.false_eq_true] at h
    have hmem : SockCall.socket i ret ∈
        (socket_loop (choose_family af results) hostname.isNone 0 (-1) results).2 := by
      split_ifs at h
      · simpa using h
      · exact h
    obtain ⟨-, rp, hrp, hfam, -⟩ := socket_loop_family _ _ results 0 (-1) i ret hmem
    exact ⟨rp, by simpa using hrp, hfam⟩

theorem socket_ret_eq_neg_one (rp : addrinfo) : socket_ret rp = -1 ↔ rp.sock = none := by
  unfold socket_ret
  cases h : rp.sock with
  | none => simp
  | some n =>
    simp only [reduceCtorEq, iff_false]

theorem socket_ret_nonneg (rp : addrinfo) (h : socket_ret rp ≠ -1) : 0 ≤ socket_ret rp := by
  unfold socket_ret at h ⊢
  cases hs : rp.sock with
  | none => simp [hs] at h
  | some n => simp

theorem socket_loop_result (af : Int) (hn : Bool) (l : List addrinfo) :
    ∀ k : Nat, (socket_loop af hn k (-1) l).1 = first_usable_fd af hn l := by
  induction l with
  | nil =>
    intro k
    simp [socket_loop, first_usable_fd]
  | cons c t ih =>
    intro k
    have hskip : usable af hn c = false →
        first_usable_fd af hn (c :: t) = first_usable_fd af hn t := by
      intro hu
      simp [first_usable_fd, List.find?_cons, hu]
    have htake : usable af hn c = true →
        first_usable_fd af hn (c :: t) = socket_ret c := by
      intro hu
      simp [first_usable_fd, List.find?_cons, hu]
    simp only [socket_loop]
    split_ifs with h1 h2 h3 h4 h5
    · rw [ih, hskip (by simp [usable, h1])]
    · rw [h2, ih, hskip (by simp [usable, (socket_ret_eq_neg_one c).1 h2])]
    · have hb : c.bind_ok = true := by
        by_contra hb
        simp [bind_ret, hb] at h4
      have hs : c.sock.isSome = true := by
        cases hs : c.sock with
        | none => exact absurd ((socket_ret_eq_neg_one c).2 hs) h2
        | some n => rfl
      rw [htake (by simp [usable, not_not.mp h1, hs, h3, hb])]
    · have hb : c.bind_ok = false := by
        cases hb : c.bind_ok with
        | false => rfl
        | true => simp [bind_ret, hb] at h4
      rw [ih, hskip (by simp [usable, h3, hb])]
    · have hb : c.connect_ok = true := by
        by_contra hb
        simp [connect_ret, hb] at h5
      have hs : c.sock.isSome = true := by
        cases hs : c.sock with
        | none => exact absurd ((socket_ret_eq_neg_one c).2 hs) h2
        | some n => rfl
      rw [htake (by simp [usable, not_not.mp h1, hs, h3, hb])]
    · have hb : c.connect_ok = false := by
        cases hb : c.connect_ok with
        | false => rfl
        | true => simp [connect_ret, hb] at h5
      rw [ih, hskip (by simp [usable, h3, hb])]

theorem track_fd_append (a b : List SockCall) :
    ∀ cur : Option Int,
      track_fd cur (a ++ b) = (track_fd cur a).bind (fun c => track_fd c b) := by
  induction a with
  | nil =>
    intro cur
    simp [track_fd]
  | cons c t ih =>
    intro cur
    cases cur <;> cases c <;> simp only [List.cons_append, track_fd, Option.none_bind] <;>
      first
      | exact ih _
      | (split_ifs <;> first | exact ih _ | rfl)

theorem socket_loop_track (af : Int) (hn : Bool) (l : List addrinfo) :
    ∀ k : Nat,
      track_fd none (socket_loop af hn k (-1) l).2
        = some (if (socket_loop af hn k (-1) l).1 = -1 then none
                else some (socket_loop af hn k (-1) l).1) := by
  induction l with
  | nil =>
    intro k
    simp [socket_loop, track_fd]
  | cons c t ih =>
    intro k
    simp only [socket_loop]
    by_cases h1 : c.ai_family ≠ af
    · rw [if_pos h1]
      exact ih _
    · rw [if_neg h1]
      by_cases h2 : socket_ret c = -1
      · rw [if_pos h2]
        simp only [track_fd, h2, if_true]
        exact ih _
      · rw [if_neg h2]
        cases hn with
        | true =>
          rw [if_pos rfl]
          by_cases h4 : bind_ret c = 0
          · rw [if_pos h4]
            simp [track_fd, h2]
          · rw [if_neg h4]
            simp only [track_fd, h2, if_false, if_true]
            exact ih _
        | false =>
          rw [if_neg (by simp)]
          by_cases h5 : connect_ret c ≠ -1
          · rw [if_pos h5]
            simp [track_fd, h2]
          · rw [if_neg h5]
            simp only [track_fd, h2, if_false, if_true]
            exact ih _

theorem socket_loop_bind_or_connect (af : Int) (hn : Bool) (l : List addrinfo) :
    ∀ (k : Nat) (fd : Int),
      (hn = true → ∀ fd1 i r, SockCall.connect fd1 i r ∉ (socket_loop af hn k fd l).2)
        ∧ (hn = false → ∀ fd1 i r, SockCall.bind fd1 i r ∉ (socket_loop af hn k fd l).2) := by
  induction l with
  | nil =>
    intro k fd
    simp [socket_loop]
  | cons c t ih =>
    intro k fd
    simp only [socket_loop]
    split_ifs with h1 h2 h3 h4 h5
    · exact ih _ _
    · refine ⟨fun h fd1 i r => ?_, fun h fd1 i r => ?_⟩
      · simpa using (ih (k + 1) (socket_ret c)).1 h fd1 i r
      · simpa using (ih (k + 1) (socket_ret c)).2 h fd1 i r
    · simp [h3]
    · refine ⟨fun h fd1 i r => ?_, fun h => by simp [h3] at h⟩
      simpa using (ih (k + 1) (-1)).1 h fd1 i r
    · have h3f : hn = false := by simpa using h3
      simp [h3f]
    · have h3f : hn = false := by simpa using h3
      refine ⟨fun h => by simp [h3f] at h, fun h fd1 i r => ?_⟩
      simpa using (ih (k + 1) (-1)).2 h fd1 i r

theorem create_socket_eq (af : Int) (hostname : Option Nat) (results : List addrinfo) :
    create_socket af hostname 0 results
      = if 0 ≤ (socket_loop (choose_family af results) hostname.isNone 0 (-1) results).1 then
          ((socket_loop (choose_family af results) hostname.isNone 0 (-1) results).1,
            (socket_loop (choose_family af results) hostname.isNone 0 (-1) results).2
              ++ [SockCall.set_nonblocking
                (socket_loop (choose_family af results) hostname.isNone 0 (-1) results).1])
        else socket_loop (choose_family af results) hostname.isNone 0 (-1) results := by
  cases results with
  | nil => simp [create_socket, socket_loop]
  | cons c t => simp [create_socket]

/-- C16. Resolver candidate selection: with the outcomes of `socket`, `bind`
and `connect` given per candidate, `create_socket` returns the descriptor of
the first candidate in list order that has the chosen family, whose socket
opens and whose bind (null hostname) or connect (hostname given) succeeds, and
-1 when there is no such candidate.  It never calls `connect` when the
hostname is null and never `bind` when it is not.  A socket is opened only
while no descriptor is open, every bind, connect and close is made on the
descriptor just opened, and at the end the only descriptor left open is the
returned one: a failed candidate's descriptor is closed before the next
candidate is tried. -/
theorem resolver_candidate_selection (af : Int) (hostname : Option Nat)
    (results : List addrinfo) :
    (create_socket af hostname 0 results).1
        = first_usable_fd (choose_family af results) hostname.isNone results
      ∧ (hostname = none →
          ∀ fd i r, SockCall.connect fd i r ∉ (create_socket af hostname 0 results).2)
      ∧ (hostname ≠ none →
          ∀ fd i r, SockCall.bind fd i r ∉ (create_socket af hostname 0 results).2)
      ∧ track_fd none (create_socket af hostname 0 results).2
          = some (if (create_socket af hostname 0 results).1 = -1 then none
                  else some (create_socket af hostname 0 results).1)
      ∧ ((∀ rp ∈ results, usable (choose_family af results) hostname.isNone rp = false) →
          (create_socket af hostname 0 results).1 = -1) := by
  have hres : (create_socket af hostname 0 results).1
      = first_usable_fd (choose_family af results) hostname.isNone results := by
    rw [create_socket_eq]
    split_ifs <;> exact socket_loop_result _ _ results 0
  have hbc := socket_loop_bind_or_connect (choose_family af results) hostname.isNone results 0 (-1)
  refine ⟨hres, ?_, ?_, ?_, ?_⟩
  · intro hn fd i r
    have h1 := hbc.1 (by simp [hn]) fd i r
    rw [create_socket_eq]
    split_ifs
    · simpa using h1
    · exact h1
  · intro hn fd i r
    have hsome : hostname.isNone = false := by
      cases hostname with
      | none => exact absurd rfl hn
      | some x => rfl
    have h1 := hbc.2 hsome fd i r
    rw [create_socket_eq]
    split_ifs
    · simpa using h1
    · exact h1
  · have ht := socket_loop_track (choose_family af results) hostname.isNone results 0
    rw [create_socket_eq]
    by_cases h0 : 0 ≤ (socket_loop (choose_family af results) hostname.isNone 0 (-1) results).1
    · have hne : (socket_loop (choose_family af results) hostname.isNone 0 (-1) results).1 ≠ -1 := by
        omega
      rw [if_pos h0]
      simp only [track_fd_append, ht, hne, if_false, Option.some_bind, track_fd, if_true]
    · rw [if_neg h0]
      exact ht
  · intro hall
    rw [hres]
    have : results.find? (usable (choose_family af results) hostname.isNone) = none := by
      rw [List.find?_eq_none]
      intro x hx
      simp [hall x hx]
    simp [first_usable_fd, this]

/-- Instance of `resolver_family_preference`: an IPv4 candidate followed by
two IPv6 ones, no hint. -/
theorem resolver_family_preference_witness :
    ([⟨AF_INET, some 3, true, true⟩, ⟨AF_INET6, none, true, true⟩,
        ⟨AF_INET6, some 4, true, true⟩] : List addrinfo) ≠ []
      ∧ choose_family AF_UNSPEC
          [⟨AF_INET, some 3, true, true⟩, ⟨AF_INET6, none, true, true⟩,
            ⟨AF_INET6, some 4, true, true⟩] = AF_INET6 :=
  ⟨by decide,
    (resolver_family_preference AF_UNSPEC none
      [⟨AF_INET, some 3, true, true⟩, ⟨AF_INET6, none, true, true⟩,
        ⟨AF_INET6, some 4, true, true⟩] (by decide)).1 rfl
      ⟨⟨AF_INET6, none, true, true⟩, by simp, rfl⟩⟩

/-- Instance of `resolver_candidate_selection`: of three IPv6 candidates the
first cannot be opened, the second cannot be bound, the third is returned. -/
theorem resolver_candidate_selection_witness :
    (create_socket AF_UNSPEC none 0
        [⟨AF_INET, some 3, true, true⟩, ⟨AF_INET6, none, true, true⟩,
          ⟨AF_INET6, some 4, false, true⟩, ⟨AF_INET6, some 5, true, false⟩]).1
      = first_usable_fd AF_INET6 true
          [⟨AF_INET, some 3, true, true⟩, ⟨AF_INET6, none, true, true⟩,
            ⟨AF_INET6, some 4, false, true⟩, ⟨AF_INET6, some 5, true, false⟩]
    ∧ first_usable_fd AF_INET6 true
          [⟨AF_INET, some 3, true, true⟩, ⟨AF_INET6, none, true, true⟩,
            ⟨AF_INET6, some 4, false, true⟩, ⟨AF_INET6, some 5, true, false⟩] = 5 :=
  ⟨(resolver_candidate_selection AF_UNSPEC none
      [⟨AF_INET, some 3, true, true⟩, ⟨AF_INET6, none, true, true⟩,
        ⟨AF_INET6, some 4, false, true⟩, ⟨AF_INET6, some 5, true, false⟩]).1,
    by decide⟩

/-! ## The terminal state -/

/-- C17 fails in the client: in the pass whose write block sets `STATE_DYING`
the read block still runs.  A client sends its `START` while `should_stop`
reads set after the send; the state is `STATE_DYING` when the write block
ends, and `recv` is called after that because the socket is readable. -/
theorem client_recv_after_dying :
    client_write 24 true
        { state := STATE_START, cmd := wire_msg CMD_START 4, recv_cmd := List.replicate 24 0,
          cmd_write := true, trace := [Call.select true] }
      = .running
        { state := STATE_DYING, cmd := wire_msg CMD_START 4, recv_cmd := List.replicate 24 0,
          cmd_write := false,
          trace := [Call.select true, Call.send (wire_msg CMD_START 4) 24] }
    ∧ ctrl_client_body .little
        { stop1 := false, sel := .ok true true, sent := 24, stop2 := true,
          rcv := .dgram (wire_msg CMD_ACK 0) 5 16 }
        (ctrl_client_init .little 4 (List.replicate 24 0))
      = .running
        { state := STATE_DYING, cmd := wire_msg CMD_START 4, recv_cmd := wire_msg CMD_ACK 0,
          cmd_write := false,
          trace := [Call.select true, Call.send (wire_msg CMD_START 4) 24, Call.recv 24] } := by
  constructor <;> decide

theorem server_write_not_dying (sent : Int) (s : Server) (h : s.state ≠ STATE_DYING) :
    (server_write sent s).vars.state ≠ STATE_DYING := by
  simp only [server_write]
  split_ifs <;> simp [Outcome.vars, h]

theorem client_read_not_dying (e : Endian) (r : RecvEvent) (s : Client)
    (h : s.state ≠ STATE_DYING) : (client_read e r s).state ≠ STATE_DYING := by
  simp only [client_read]
  split_ifs <;> simp [h]

/-- C17, amended. In `STATE_DYING` the loop test fails in both roles: the
loop returns without a further `select`, send or receive.  In the server the
state becomes `STATE_DYING` only in the read block, so the `recvfrom` that
delivered the `STOP` is the last call of the run.  In the client it becomes
`STATE_DYING` only in the write block after a `send` that returned 24 with
`should_stop` read set; what follows in that pass is no send, and one `recv`
exactly when the socket is readable, which leaves the state `STATE_DYING`. -/
theorem no_send_after_dying (e : Endian) :
    (∀ (envs : List ServerEnv) (s : Server), s.state = STATE_DYING →
        ctrl_server_loop e envs s = .returned s)
      ∧ (∀ (envs : List ClientEnv) (s : Client), s.state = STATE_DYING →
        ctrl_client_loop e envs s = .returned s)
      ∧ (∀ (env : ServerEnv) (s s2 : Server), s.state ≠ STATE_DYING →
        ctrl_server_body e env s = .running s2 → s2.state = STATE_DYING →
        ∃ tr, s2.trace = tr ++ [Call.recvfrom 24])
      ∧ (∀ (stop1 stop2 rd wr : Bool) (sent : Int) (rcv : RecvEvent) (s s2 : Client),
        s.state ≠ STATE_DYING →
        ctrl_client_body e
            { stop1 := stop1, sel := .ok rd wr, sent := sent, stop2 := stop2, rcv := rcv } s
          = .running s2 →
        s2.state = STATE_DYING →
        stop2 = true ∧ sent = 24
          ∧ s2.trace = s.trace
              ++ [Call.select s.cmd_write, Call.send (client_stop_check e stop1 s).cmd 24]
              ++ (if rd then [Call.recv (recv_ret rcv)] else []))
      ∧ (∀ (r : RecvEvent) (s : Client), s.state = STATE_DYING →
        (client_read e r s).state = STATE_DYING
          ∧ (client_read e r s).trace = s.trace ++ [Call.recv (recv_ret r)]) := by
  refine ⟨fun envs s h => server_loop_dying e envs s h,
    fun envs s h => client_loop_dying e envs s h, ?_, ?_,
    fun r s h => ⟨client_read_dying e r s h, client_read_trace e r s⟩⟩
  · intro env s s2 hs hbody hd
    obtain ⟨sel, stop, sent, rcv⟩ := env
    cases sel with
    | eintr =>
      simp only [ctrl_server_body, Outcome.running.injEq] at hbody
      subst hbody
      exact absurd hd hs
    | error => simp [ctrl_server_body] at hbody
    | ok rd wr =>
      cases stop with
      | true => simp [ctrl_server_body] at hbody
      | false =>
        simp only [ctrl_server_body, Bool.false_eq_true, if_false] at hbody
        have hw : ∀ o, o = (if (s.cmd_write && wr) = true then
              server_write sent { s with trace := s.trace ++ [Call.select s.cmd_write] }
            else .running { s with trace := s.trace ++ [Call.select s.cmd_write] }) →
            o.vars.state ≠ STATE_DYING := by
          intro o ho
          subst ho
          split_ifs
          · exact server_write_not_dying sent _ hs
          · exact hs
        have hw2 := hw _ rfl
        revert hw2 hbody
        generalize (if (s.cmd_write && wr) = true then
              server_write sent { s with trace := s.trace ++ [Call.select s.cmd_write] }
            else Outcome.running { s with trace := s.trace ++ [Call.select s.cmd_write] }) = o
        intro hbody hw2
        cases o with
        | running s3 =>
          simp only [Outcome.running.injEq] at hbody
          simp only [Outcome.vars] at hw2
          cases rd with
          | false =>
            simp only [Bool.false_eq_true, if_false] at hbody
            subst hbody
            exact absurd hd hw2
          | true =>
            simp only [if_true] at hbody
            subst hbody
            refine ⟨s3.trace, ?_⟩
            rw [server_read_trace]
            by_cases hret : recv_ret rcv = (sizeof_nio_cmd : Int)
            · rw [hret]
              rfl
            · have := (server_read_wrong_size e rcv s3 hret).1
              simp only [Server.proto, Prod.mk.injEq] at this
              exact absurd (this.1 ▸ hd) hw2
        | returned s3 => simp at hbody
        | exited s3 => simp at hbody
  · intro stop1 stop2 rd wr sent rcv s s2 hs hbody hd
    have hc : (client_stop_check e stop1 s).state = s.state := by
      cases stop1 <;> rfl
    have hct : (client_stop_check e stop1 s).trace = s.trace := by
      cases stop1 <;> rfl
    simp only [ctrl_client_body] at hbody
    by_cases hw : (s.cmd_write && wr) = true
    · by_cases hsent : sent = (sizeof_nio_cmd : Int)
      · subst hsent
        simp only [hw, if_true, client_write_ok, Outcome.running.injEq] at hbody
        have hstop : stop2 = true := by
          cases stop2 with
          | true => rfl
          | false =>
            exfalso
            subst hbody
            cases rd with
            | false =>
              simp only [Bool.false_eq_true, if_false, hc] at hd
              split_ifs at hd
              exact hs hd
            | true =>
              simp only [if_true] at hd
              refine client_read_not_dying e rcv _ ?_ hd
              simp only [Bool.false_eq_true, if_false, hc]
              split_ifs
              · simp
              · exact hs
        subst hstop
        subst hbody
        refine ⟨rfl, rfl, ?_⟩
        cases rd with
        | false => simp [hct, sizeof_nio_cmd]
        | true => simp [client_read_trace, hct, sizeof_nio_cmd]
      · simp [hw, client_write_exit _ _ _ hsent] at hbody
    · exfalso
      simp only [hw, Bool.false_eq_true, if_false, Outcome.running.injEq] at hbody
      subst hbody
      cases rd with
      | false =>
        simp only [Bool.false_eq_true, if_false, hc] at hd
        exact hs hd
      | true =>
        simp only [if_true] at hd
        exact client_read_not_dying e rcv _ (by simpa [hc] using hs) hd

/-! ## The destination of the ACK -/

/-- C18 fails when another datagram is read before the `ACK` is written.  A
`START` arrives from address 77; in the next pass the socket is readable but
not writable and a 10-byte datagram from address 99 is read; in the third
pass the socket is writable: the `ACK` is sent to 99. -/
theorem ack_sent_to_later_sender :
    ctrl_server_loop .little
        [ { sel := .ok true false, stop := false, sent := 24,
            rcv := .dgram (wire_msg CMD_START 4) 77 16 },
          { sel := .ok true false, stop := false, sent := 24,
            rcv := .dgram (List.replicate 10 0) 99 16 },
          { sel := .ok false true, stop := false, sent := 24, rcv := .fail } ]
        (ctrl_server_init (List.replicate 24 0) (List.replicate 24 0) 0 0)
      = .running
        { state := STATE_STARTED, cmd := wire_msg CMD_ACK 0,
          recv_cmd := List.replicate 10 0 ++ List.replicate 14 0, remote := 99, r_len := 16,
          cmd_write := false,
          trace := [Call.select false, Call.recvfrom 24, Call.select true, Call.recvfrom 10,
                    Call.select true, Call.sendto (wire_msg CMD_ACK 0) 99 16 24] } := by
  decide

theorem server_read_remote (e : Endian) (r : RecvEvent) (s : Server) :
    ((server_read e r s).remote, (server_read e r s).r_len)
      = match r with
        | .fail => (s.remote, sizeof_sockaddr)
        | .dgram _ src l => (store_addr src l s.remote, l) := by
  cases r with
  | fail => rw [server_read_fail]
  | dgram p src l =>
    by_cases hp : sizeof_nio_cmd ≤ p.length
    · rw [server_read_full e p src l s hp]
      split_ifs <;> rfl
    · rw [server_read_short_dgram e p src l s (Nat.lt_of_not_le hp)]
      rfl

theorem server_body_sendto (e : Endian) (env : ServerEnv) (s : Server)
    (b : Buf) (d : Addr) (l : Nat) (r : Int)
    (h : Call.sendto b d l r ∈ (ctrl_server_body e env s).vars.trace) :
    Call.sendto b d l r ∈ s.trace ∨ (b = s.cmd ∧ d = s.remote ∧ l = s.r_len ∧ r = env.sent) := by
  obtain ⟨sel, stop, sent, rcv⟩ := env
  cases sel with
  | eintr => exact Or.inl (by simpa [ctrl_server_body, Outcome.vars] using h)
  | error => exact Or.inl (by simpa [ctrl_server_body, Outcome.vars] using h)
  | ok rd wr =>
    cases stop with
    | true => exact Or.inl (by simpa [ctrl_server_body, Outcome.vars] using h)
    | false =>
      simp only [ctrl_server_body, Bool.false_eq_true, if_false] at h
      have hw : ∀ o, o = (if (s.cmd_write && wr) = true then
            server_write sent { s with trace := s.trace ++ [Call.select s.cmd_write] }
          else .running { s with trace := s.trace ++ [Call.select s.cmd_write] }) →
          Call.sendto b d l r ∈ o.vars.trace →
          Call.sendto b d l r ∈ s.trace ∨ (b = s.cmd ∧ d = s.remote ∧ l = s.r_len ∧ r = sent) := by
        intro o ho hmem
        subst ho
        simp only [server_write] at hmem
        split_ifs at hmem <;> simp [Outcome.vars] at hmem <;> tauto
      have hw2 := hw _ rfl
      revert hw2 h
      generalize (if (s.cmd_write && wr) = true then
            server_write sent { s with trace := s.trace ++ [Call.select s.cmd_write] }
          else Outcome.running { s with trace := s.trace ++ [Call.select s.cmd_write] }) = o
      intro h hw2
      cases o with
      | running s3 =>
        cases rd with
        | false => exact hw2 (by simpa [Outcome.vars] using h)
        | true =>
          simp only [if_true, Outcome.vars, server_read_trace] at h
          exact hw2 (by simpa [Outcome.vars] using h)
      | returned s3 => exact hw2 h
      | exited s3 => exact hw2 h

/-- C18, amended. The `ACK` goes where `remote` and `r_len` point after the
latest read.  Every `sendto` of a pass is made with the `remote` and `r_len`
the pass started with, and with the `cmd` it started with; the write block
leaves `remote` and `r_len` alone; every read block, whatever the size or
command of what it reads, stores the source address of the datagram read in
`remote` and its length in `r_len` (a failed `recvfrom` leaves `remote` and
puts `sizeof(remote)` into `r_len`), and when that address fits
`struct sockaddr` a `sendto` with them names it.  So with an `ACK` pending, a
pass that reads a datagram from an address `Y` of at most 16 bytes without
writing, followed by a pass that writes, sends the `ACK` to `Y`; a pass that
writes at once sends it with the address stored when the `START` was read. -/
theorem ack_goes_to_latest_sender (e : Endian) :
    (∀ (env : ServerEnv) (s : Server) (b : Buf) (d : Addr) (l : Nat) (r : Int),
        Call.sendto b d l r ∈ (ctrl_server_body e env s).vars.trace →
        Call.sendto b d l r ∈ s.trace ∨ (b = s.cmd ∧ d = s.remote ∧ l = s.r_len ∧ r = env.sent))
      ∧ (∀ (sent : Int) (s : Server),
        (server_write sent s).vars.remote = s.remote
          ∧ (server_write sent s).vars.r_len = s.r_len)
      ∧ (∀ (s : Server) (p : Buf) (src : Addr) (l : Nat),
        (server_read e (.dgram p src l) s).remote = store_addr src l s.remote
          ∧ (server_read e (.dgram p src l) s).r_len = l
          ∧ (l ≤ sizeof_sockaddr → src < 256 ^ l →
              sendto_dest (server_read e (.dgram p src l) s).remote
                (server_read e (.dgram p src l) s).r_len = some src))
      ∧ (∀ s : Server,
        (server_read e .fail s).remote = s.remote
          ∧ (server_read e .fail s).r_len = sizeof_sockaddr)
      ∧ (∀ (s : Server) (q : Buf) (Y : Addr) (ylen : Nat) (sent1 : Int) (r2 : RecvEvent),
        s.state = STATE_START → s.cmd_write = true → ¬ is_stop e (.dgram q Y ylen) →
        ylen ≤ sizeof_sockaddr → Y < 256 ^ ylen →
        ∃ s2 : Server,
          ctrl_server_loop e
              [ { sel := .ok true false, stop := false, sent := sent1, rcv := .dgram q Y ylen },
                { sel := .ok false true, stop := false, sent := (sizeof_nio_cmd : Int),
                  rcv := r2 } ] s
            = .running s2
          ∧ s2.state = STATE_STARTED
          ∧ s2.trace = s.trace
              ++ [Call.select true, Call.recvfrom (recv_ret (.dgram q Y ylen)), Call.select true,
                  Call.sendto (server_read e (.dgram q Y ylen) s).cmd
                    (store_addr Y ylen s.remote) ylen 24]
          ∧ sendto_dest (store_addr Y ylen s.remote) ylen = some Y)
      ∧ (∀ (s : Server) (r2 : RecvEvent),
        s.state = STATE_START → s.cmd_write = true →
        ctrl_server_loop e
            [ { sel := .ok false true, stop := false, sent := (sizeof_nio_cmd : Int), rcv := r2 } ] s
          = .running
              { s with
                state := STATE_STARTED, cmd_write := false,
                trace := s.trace ++ [Call.select true, Call.sendto s.cmd s.remote s.r_len 24] }) := by
  refine ⟨fun env s b d l r h => server_body_sendto e env s b d l r h, ?_, ?_, ?_, ?_, ?_⟩
  · intro sent s
    simp only [server_write]
    split_ifs <;> exact ⟨rfl, rfl⟩
  · intro s p src l
    have h := server_read_remote e (.dgram p src l) s
    simp only [Prod.mk.injEq] at h
    refine ⟨h.1, h.2, fun hl hsrc => ?_⟩
    rw [h.1, h.2]
    exact sendto_dest_store_addr src l s.remote hl hsrc
  · intro s
    have h := server_read_remote e .fail s
    simp only [Prod.mk.injEq] at h
    exact h
  · intro s q Y ylen sent1 r2 hs hw hns hfit hY
    have hnd : s.state ≠ STATE_DYING := by simp [hs]
    -- the variables after the read of the first pass
    have hrd := server_read_remote e (.dgram q Y ylen)
      { s with trace := s.trace ++ [Call.select s.cmd_write] }
    simp only [Prod.mk.injEq] at hrd
    have hst : (server_read e (.dgram q Y ylen)
        { s with trace := s.trace ++ [Call.select s.cmd_write] }).state = STATE_START
        ∧ (server_read e (.dgram q Y ylen)
        { s with trace := s.trace ++ [Call.select s.cmd_write] }).cmd_write = true
        ∧ (server_read e (.dgram q Y ylen)
        { s with trace := s.trace ++ [Call.select s.cmd_write] }).cmd
          = (server_read e (.dgram q Y ylen) s).cmd := by
      by_cases hq : sizeof_nio_cmd ≤ q.length
      · have hc : ntohl e (get_field e q off_cmd) ≠ CMD_STOP :=
          fun hc => hns ⟨q, Y, ylen, rfl, hq, hc⟩
        rw [server_read_full e q Y ylen _ hq, server_read_full e q Y ylen _ hq]
        simp only [hs, ne_eq, not_true_eq_false, if_false, hc]
        split_ifs <;> simp [Server.received, hs, hw]
      · rw [server_read_short_dgram e q Y ylen _ (Nat.lt_of_not_le hq),
          server_read_short_dgram e q Y ylen _ (Nat.lt_of_not_le hq)]
        simp [Server.received, hs, hw]
    generalize hs1 : server_read e (.dgram q Y ylen)
        { s with trace := s.trace ++ [Call.select s.cmd_write] } = s1 at hrd hst
    have htr : s1.trace = s.trace ++ [Call.select true, Call.recvfrom (recv_ret (.dgram q Y ylen))] := by
      rw [← hs1, server_read_trace]
      simp [hw]
    have hnd1 : s1.state ≠ STATE_DYING := by simp [hst.1]
    refine ⟨{ s1 with
              state := STATE_STARTED, cmd_write := false,
              trace := s1.trace ++ [Call.select true, Call.sendto s1.cmd s1.remote s1.r_len 24] },
      ?_, rfl, ?_, sendto_dest_store_addr Y ylen s.remote hfit hY⟩
    · simp [ctrl_server_loop, hnd, ctrl_server_body, hs1, hnd1, hst.2.1, server_write, hst.1,
        sizeof_nio_cmd]
    · simp [htr, hrd.1, hrd.2, hst.2.2]
  · intro s r2 hs hw
    have hnd : s.state ≠ STATE_DYING := by simp [hs]
    simp [ctrl_server_loop, hnd, ctrl_server_body, hw, server_write, hs, sizeof_nio_cmd]

/-! ## The send that ends the client, and the order of the states -/

/-- C19 fails when the flag becomes set between its two reads.  The client's
first pass reads `should_stop` clear before `select`, so the pending message
is still the `START`; the flag reads set after the `send`: the datagram sent
is the `START` (00 00 00 01, thread count 4), the state is `STATE_DYING`, and
the loop returns without a `STOP` ever being sent. -/
theorem client_dies_after_sending_start :
    ctrl_client_loop .little
        [ { stop1 := false, sel := .ok false true, sent := 24, stop2 := true, rcv := .fail },
          { stop1 := true, sel := .ok false true, sent := 24, stop2 := true, rcv := .fail } ]
        (ctrl_client_init .little 4 (List.replicate 24 0))
      = .returned
        { state := STATE_DYING,
          cmd := [0, 0, 0, 1, 0, 0, 0, 4] ++ List.replicate 16 0,
          recv_cmd := List.replicate 24 0, cmd_write := false,
          trace := [Call.select true,
                    Call.send ([0, 0, 0, 1, 0, 0, 0, 4] ++ List.replicate 16 0) 24] } := by
  decide

theorem rank_le_dying (st : states) : st.rank ≤ STATE_DYING.rank := by
  cases st <;> decide

theorem server_read_state (e : Endian) (r : RecvEvent) (s : Server) :
    (server_read e r s).state = s.state ∨ (server_read e r s).state = STATE_DYING := by
  cases r with
  | fail =>
    rw [server_read_fail]
    exact Or.inl rfl
  | dgram p src l =>
    by_cases hp : sizeof_nio_cmd ≤ p.length
    · rw [server_read_full e p src l s hp]
      split_ifs
      · exact Or.inl rfl
      · exact Or.inl rfl
      · exact Or.inr rfl
      · exact Or.inl rfl
    · rw [server_read_short_dgram e p src l s (Nat.lt_of_not_le hp)]
      exact Or.inl rfl

theorem server_read_flag (e : Endian) (r : RecvEvent) (s : Server)
    (h : (server_read e r s).cmd_write = true) :
    s.cmd_write = true ∨ (s.state = STATE_START ∧ (server_read e r s).state = STATE_START) := by
  cases r with
  | fail =>
    rw [server_read_fail] at h
    exact Or.inl h
  | dgram p src l =>
    by_cases hp : sizeof_nio_cmd ≤ p.length
    · rw [server_read_full e p src l s hp] at h ⊢
      split_ifs at h ⊢ with h1 h2 h3
      · exact Or.inl h
      · exact Or.inr ⟨not_not.mp h2, not_not.mp h2⟩
      · exact Or.inl h
      · exact Or.inl h
    · rw [server_read_short_dgram e p src l s (Nat.lt_of_not_le hp)] at h
      exact Or.inl h

theorem server_write_state (sent : Int) (s : Server) :
    ((server_write sent s).vars.state = s.state
        ∧ (server_write sent s).vars.cmd_write = s.cmd_write)
      ∨ (s.state = STATE_START ∧ (server_write sent s).vars.state = STATE_STARTED
        ∧ (server_write sent s).vars.cmd_write = false) := by
  simp only [server_write]
  split_ifs with h1 h2
  · exact Or.inl ⟨rfl, rfl⟩
  · exact Or.inr ⟨h1, rfl, rfl⟩
  · exact Or.inl ⟨rfl, rfl⟩

/-- What one pass of the server does to state and flag: the write block keeps
both or goes from `STATE_START` to `STATE_STARTED` clearing the flag, then the
read block keeps the state or makes it `STATE_DYING`, and sets the flag only
in `STATE_START`. -/
theorem server_body_steps (e : Endian) (env : ServerEnv) (s : Server) :
    ∃ m : Server,
      ((m.state = s.state ∧ m.cmd_write = s.cmd_write)
          ∨ (s.state = STATE_START ∧ m.state = STATE_STARTED ∧ m.cmd_write = false))
        ∧ ((ctrl_server_body e env s).vars.state = m.state
            ∨ (ctrl_server_body e env s).vars.state = STATE_DYING)
        ∧ ((ctrl_server_body e env s).vars.cmd_write = true →
            m.cmd_write = true
              ∨ (m.state = STATE_START
                  ∧ (ctrl_server_body e env s).vars.state = STATE_START)) := by
  obtain ⟨sel, stop, sent, rcv⟩ := env
  have hself : ∀ tr, ∃ m : Server,
      ((m.state = s.state ∧ m.cmd_write = s.cmd_write)
          ∨ (s.state = STATE_START ∧ m.state = STATE_STARTED ∧ m.cmd_write = false))
        ∧ (({ s with trace := tr } : Server).state = m.state
            ∨ ({ s with trace := tr } : Server).state = STATE_DYING)
        ∧ (({ s with trace := tr } : Server).cmd_write = true →
            m.cmd_write = true
              ∨ (m.state = STATE_START ∧ ({ s with trace := tr } : Server).state = STATE_START)) :=
    fun tr => ⟨s, Or.inl ⟨rfl, rfl⟩, Or.inl rfl, fun h => Or.inl h⟩
  cases sel with
  | eintr => exact hself _
  | error => exact hself _
  | ok rd wr =>
    cases stop with
    | true => exact hself _
    | false =>
      simp only [ctrl_server_body, Bool.false_eq_true, if_false]
      have hw : ∀ o, o = (if (s.cmd_write && wr) = true then
            server_write sent { s with trace := s.trace ++ [Call.select s.cmd_write] }
          else .running { s with trace := s.trace ++ [Call.select s.cmd_write] }) →
          ((o.vars.state = s.state ∧ o.vars.cmd_write = s.cmd_write)
            ∨ (s.state = STATE_START ∧ o.vars.state = STATE_STARTED
                ∧ o.vars.cmd_write = false)) := by
        intro o ho
        subst ho
        split_ifs
        · exact server_write_state sent _
        · exact Or.inl ⟨rfl, rfl⟩
      have hw2 := hw _ rfl
      revert hw2
      generalize (if (s.cmd_write && wr) = true then
            server_write sent { s with trace := s.trace ++ [Call.select s.cmd_write] }
          else Outcome.running { s with trace := s.trace ++ [Call.select s.cmd_write] }) = o
      intro hw2
      cases o with
      | running s3 =>
        simp only [Outcome.vars] at hw2 ⊢
        cases rd with
        | false => exact ⟨s3, hw2, Or.inl rfl, fun h => Or.inl h⟩
        | true => exact ⟨s3, hw2, server_read_state e rcv s3, server_read_flag e rcv s3⟩
      | returned s3 => exact ⟨s3, hw2, Or.inl rfl, fun h => Or.inl h⟩
      | exited s3 => exact ⟨s3, hw2, Or.inl rfl, fun h => Or.inl h⟩

theorem client_write_state (sent : Int) (stop2 : Bool) (s : Client) :
    (client_write sent stop2 s).vars.state = s.state
      ∨ (s.state = STATE_START ∧ (client_write sent stop2 s).vars.state = STATE_START_SENT)
      ∨ (client_write sent stop2 s).vars.state = STATE_DYING := by
  by_cases hsent : sent = (sizeof_nio_cmd : Int)
  · subst hsent
    rw [client_write_ok]
    cases stop2 with
    | true => exact Or.inr (Or.inr rfl)
    | false =>
      by_cases hs : s.state = STATE_START
      · exact Or.inr (Or.inl ⟨hs, by simp [Outcome.vars, hs]⟩)
      · exact Or.inl (by simp [Outcome.vars, hs])
  · rw [client_write_exit sent stop2 s hsent]
    exact Or.inl rfl

theorem client_read_state_cases (e : Endian) (r : RecvEvent) (s : Client) :
    (client_read e r s).state = s.state
      ∨ (s.state = STATE_START_SENT ∧ (client_read e r s).state = STATE_STARTED) := by
  simp only [client_read]
  split_ifs with h1 h2 h3
  · exact Or.inl rfl
  · exact Or.inr ⟨h3, rfl⟩
  · exact Or.inl rfl
  · exact Or.inl rfl
  · exact Or.inl rfl

/-- What one pass of the client does to the state: the `should_stop` block
keeps it, the write block keeps it or goes from `STATE_START` to
`STATE_START_SENT` or to `STATE_DYING`, then the read block keeps it or goes
from `STATE_START_SENT` to `STATE_STARTED`. -/
theorem client_body_steps (e : Endian) (env : ClientEnv) (s : Client) :
    ∃ m : Client,
      (m.state = s.state ∨ (s.state = STATE_START ∧ m.state = STATE_START_SENT)
          ∨ m.state = STATE_DYING)
        ∧ ((ctrl_client_body e env s).vars.state = m.state
            ∨ (m.state = STATE_START_SENT
                ∧ (ctrl_client_body e env s).vars.state = STATE_STARTED)) := by
  obtain ⟨stop1, sel, sent, stop2, rcv⟩ := env
  have hc : (client_stop_check e stop1 s).state = s.state := by
    cases stop1 <;> rfl
  simp only [ctrl_client_body]
  generalize client_stop_check e stop1 s = c at hc
  cases sel with
  | eintr => exact ⟨c, Or.inl hc, Or.inl rfl⟩
  | error => exact ⟨c, Or.inl hc, Or.inl rfl⟩
  | ok rd wr =>
    by_cases hw : (s.cmd_write && wr) = true
    · by_cases hsent : sent = (sizeof_nio_cmd : Int)
      · subst hsent
        have hW := client_write_state (sizeof_nio_cmd : Int) stop2
          { c with trace := c.trace ++ [Call.select s.cmd_write] }
        rw [client_write_ok] at hW
        simp only [Outcome.vars] at hW
        simp only [hw, if_true, client_write_ok, Outcome.vars]
        generalize hWdef : ({ state := if stop2 = true then STATE_DYING
                                else if c.state = STATE_START then STATE_START_SENT else c.state,
                              cmd := c.cmd, recv_cmd := c.recv_cmd, cmd_write := false,
                              trace := c.trace ++ [Call.select s.cmd_write]
                                ++ [Call.send c.cmd (sizeof_nio_cmd : Int)] } : Client) = W
          at hW ⊢
        have hWs : W.state = (if stop2 = true then STATE_DYING
            else if c.state = STATE_START then STATE_START_SENT else c.state) := by
          rw [← hWdef]
        rw [← hWs] at hW
        have hW2 : W.state = s.state ∨ (s.state = STATE_START ∧ W.state = STATE_START_SENT)
            ∨ W.state = STATE_DYING := by
          rcases hW with h | ⟨h1, h2⟩ | h
          · exact Or.inl (h.trans hc)
          · exact Or.inr (Or.inl ⟨hc.symm.trans h1, h2⟩)
          · exact Or.inr (Or.inr h)
        cases rd with
        | false => exact ⟨W, hW2, Or.inl rfl⟩
        | true => exact ⟨W, hW2, client_read_state_cases e rcv W⟩
      · simp only [hw, if_true, client_write_exit _ _ _ hsent, Outcome.vars]
        exact ⟨c, Or.inl hc, Or.inl rfl⟩
    · simp only [hw, Bool.false_eq_true, if_false, Outcome.vars]
      cases rd with
      | false => exact ⟨c, Or.inl hc, Or.inl rfl⟩
      | true =>
        have hr := client_read_state_cases e rcv
          { c with trace := c.trace ++ [Call.select s.cmd_write] }
        exact ⟨{ c with trace := c.trace ++ [Call.select s.cmd_write] }, Or.inl hc, hr⟩

theorem server_body_rank (e : Endian) (env : ServerEnv) (s : Server) :
    s.state.rank ≤ (ctrl_server_body e env s).vars.state.rank := by
  obtain ⟨m, h1, h2, -⟩ := server_body_steps e env s
  have hm : s.state.rank ≤ m.state.rank := by
    rcases h1 with ⟨h, -⟩ | ⟨hs, hm, -⟩
    · rw [h]
    · rw [hs, hm]
      decide
  rcases h2 with h | h
  · rw [h]
    exact hm
  · rw [h]
    exact rank_le_dying _

theorem client_body_rank (e : Endian) (env : ClientEnv) (s : Client) :
    s.state.rank ≤ (ctrl_client_body e env s).vars.state.rank := by
  obtain ⟨m, h1, h2⟩ := client_body_steps e env s
  have hm : s.state.rank ≤ m.state.rank := by
    rcases h1 with h | ⟨hs, hm⟩ | h
    · rw [h]
    · rw [hs, hm]
      decide
    · rw [h]
      exact rank_le_dying _
  rcases h2 with h | ⟨hm2, h⟩
  · rw [h]
    exact hm
  · rw [h]
    rw [hm2] at hm
    exact le_trans hm (by decide)

theorem server_body_flag_inv (e : Endian) (env : ServerEnv) (s : Server)
    (hss : s.state ≠ STATE_START_SENT)
    (hj : s.cmd_write = true → s.state = STATE_START ∨ s.state = STATE_DYING) :
    (ctrl_server_body e env s).vars.state ≠ STATE_START_SENT
      ∧ ((ctrl_server_body e env s).vars.cmd_write = true →
          (ctrl_server_body e env s).vars.state = STATE_START
            ∨ (ctrl_server_body e env s).vars.state = STATE_DYING) := by
  obtain ⟨m, h1, h2, h3⟩ := server_body_steps e env s
  refine ⟨?_, ?_⟩
  · intro hf
    rcases h2 with h | h
    · rcases h1 with ⟨hm, -⟩ | ⟨-, hm, -⟩
      · exact hss (hm ▸ h ▸ hf)
      · rw [h, hm] at hf
        exact absurd hf (by decide)
    · rw [h] at hf
      exact absurd hf (by decide)
  · intro hf
    rcases h3 hf with hmw | ⟨-, hfin⟩
    · rcases h1 with ⟨hm, hmc⟩ | ⟨-, -, hmc⟩
      · rcases h2 with h | h
        · rw [h, hm]
          exact hj (hmc ▸ hmw)
        · exact Or.inr h
      · rw [hmc] at hmw
        exact absurd hmw (by decide)
    · exact Or.inl hfin

theorem server_loop_flag_inv (e : Endian) (envs : List ServerEnv) (s : Server)
    (hss : s.state ≠ STATE_START_SENT)
    (hj : s.cmd_write = true → s.state = STATE_START ∨ s.state = STATE_DYING) :
    (ctrl_server_loop e envs s).vars.state ≠ STATE_START_SENT
      ∧ ((ctrl_server_loop e envs s).vars.cmd_write = true →
          (ctrl_server_loop e envs s).vars.state = STATE_START
            ∨ (ctrl_server_loop e envs s).vars.state = STATE_DYING) := by
  induction envs generalizing s with
  | nil =>
    simp only [ctrl_server_loop]
    split_ifs <;> exact ⟨hss, hj⟩
  | cons env rest ih =>
    simp only [ctrl_server_loop]
    split_ifs
    · exact ⟨hss, hj⟩
    · have hb := server_body_flag_inv e env s hss hj
      revert hb
      cases ctrl_server_body e env s with
      | running s1 =>
        intro hb
        exact ih s1 hb.1 hb.2
      | returned s1 =>
        intro hb
        exact hb
      | exited s1 =>
        intro hb
        exact hb

theorem server_loop_running_not_dying (e : Endian) (envs : List ServerEnv) (s s2 : Server)
    (h : ctrl_server_loop e envs s = .running s2) : s2.state ≠ STATE_DYING := by
  induction envs generalizing s with
  | nil =>
    simp only [ctrl_server_loop] at h
    split_ifs at h with hd
    simp only [Outcome.running.injEq] at h
    exact h ▸ hd
  | cons env rest ih =>
    simp only [ctrl_server_loop] at h
    split_ifs at h with hd
    revert h
    cases ctrl_server_body e env s with
    | running s1 =>
      intro h
      exact ih s1 h
    | returned s1 =>
      intro h
      simp at h
    | exited s1 =>
      intro h
      simp at h

/-- C20 fails in its last clause at the terminal state.  A `START` is read,
which sets `cmd_write`; in the next pass the socket is readable but not
writable and a `STOP` is read: the loop returns in `STATE_DYING` with
`cmd_write` still set. -/
theorem ack_pending_in_dying :
    ctrl_server_loop .little
        [ { sel := .ok true false, stop := false, sent := 24,
            rcv := .dgram (wire_msg CMD_START 4) 77 16 },
          { sel := .ok true false, stop := false, sent := 24,
            rcv := .dgram (wire_msg CMD_STOP 0) 77 16 } ]
        (ctrl_server_init (List.replicate 24 0) (List.replicate 24 0) 0 0)
      = .returned
        { state := STATE_DYING, cmd := wire_msg CMD_ACK 0, recv_cmd := wire_msg CMD_STOP 0,
          remote := 77, r_len := 16, cmd_write := true,
          trace := [Call.select false, Call.recvfrom 24, Call.select true, Call.recvfrom 24] } := by
  decide

/-- C20, amended. State monotonicity: with the states ranked in the order
`STATE_START`, `STATE_START_SENT`, `STATE_STARTED`, `STATE_DYING`, the state
after a pass of either loop never ranks below the state before it, whatever
`select`, the flag, the send and the receive return.  The server never enters
`STATE_START_SENT`.  In the client only the read block, and only from
`STATE_START_SENT`, moves the state to `STATE_STARTED`.  In the server the
flag `cmd_write` is turned on only by a read block running in `STATE_START`
(the write block never turns it on); at every loop test that lets a pass run,
a set flag means the state is `STATE_START`; and in every run the flag is set
only in `STATE_START` or, when a `STOP` was read while the `ACK` was pending,
in `STATE_DYING`. -/
theorem state_monotone (e : Endian) :
    (∀ (env : ServerEnv) (s : Server),
        s.state.rank ≤ (ctrl_server_body e env s).vars.state.rank)
      ∧ (∀ (env : ClientEnv) (s : Client),
        s.state.rank ≤ (ctrl_client_body e env s).vars.state.rank)
      ∧ (∀ (env : ServerEnv) (s : Server),
        (ctrl_server_body e env s).vars.state = STATE_START_SENT → s.state = STATE_START_SENT)
      ∧ (∀ (envs : List ServerEnv) (cmd0 recv0 : Buf) (remote0 : Addr) (r_len0 : Nat),
        (ctrl_server_loop e envs (ctrl_server_init cmd0 recv0 remote0 r_len0)).vars.state
          ≠ STATE_START_SENT)
      ∧ (∀ (stop1 : Bool) (s : Client), (client_stop_check e stop1 s).state = s.state)
      ∧ (∀ (sent : Int) (stop2 : Bool) (s : Client),
        (client_write sent stop2 s).vars.state = STATE_STARTED → s.state = STATE_STARTED)
      ∧ (∀ (r : RecvEvent) (s : Client),
        (client_read e r s).state = STATE_STARTED →
        s.state = STATE_STARTED ∨ s.state = STATE_START_SENT)
      ∧ (∀ (sent : Int) (s : Server),
        (server_write sent s).vars.cmd_write = true → s.cmd_write = true)
      ∧ (∀ (r : RecvEvent) (s : Server),
        (server_read e r s).cmd_write = true →
        s.cmd_write = true ∨ (s.state = STATE_START ∧ (server_read e r s).state = STATE_START))
      ∧ (∀ (envs : List ServerEnv) (cmd0 recv0 : Buf) (remote0 : Addr) (r_len0 : Nat)
          (s2 : Server),
        ctrl_server_loop e envs (ctrl_server_init cmd0 recv0 remote0 r_len0) = .running s2 →
        s2.cmd_write = true → s2.state = STATE_START)
      ∧ (∀ (envs : List ServerEnv) (cmd0 recv0 : Buf) (remote0 : Addr) (r_len0 : Nat),
        (ctrl_server_loop e envs (ctrl_server_init cmd0 recv0 remote0 r_len0)).vars.cmd_write
          = true →
        (ctrl_server_loop e envs (ctrl_server_init cmd0 recv0 remote0 r_len0)).vars.state
            = STATE_START
          ∨ (ctrl_server_loop e envs (ctrl_server_init cmd0 recv0 remote0 r_len0)).vars.state
            = STATE_DYING) := by
  have hinit : ∀ (envs : List ServerEnv) (cmd0 recv0 : Buf) (remote0 : Addr) (r_len0 : Nat),
      (ctrl_server_loop e envs (ctrl_server_init cmd0 recv0 remote0 r_len0)).vars.state
          ≠ STATE_START_SENT
        ∧ ((ctrl_server_loop e envs (ctrl_server_init cmd0 recv0 remote0 r_len0)).vars.cmd_write
            = true →
          (ctrl_server_loop e envs (ctrl_server_init cmd0 recv0 remote0 r_len0)).vars.state
              = STATE_START
            ∨ (ctrl_server_loop e envs (ctrl_server_init cmd0 recv0 remote0 r_len0)).vars.state
              = STATE_DYING) := by
    intro envs cmd0 recv0 remote0 r_len0
    exact server_loop_flag_inv e envs _ (by simp [ctrl_server_init])
      (fun h => by simp [ctrl_server_init] at h)
  refine ⟨server_body_rank e, client_body_rank e, ?_, fun envs c r a l => (hinit envs c r a l).1,
    ?_, ?_, ?_, ?_, server_read_flag e, ?_, fun envs c r a l => (hinit envs c r a l).2⟩
  · intro env s hf
    obtain ⟨m, h1, h2, -⟩ := server_body_steps e env s
    rcases h2 with h | h
    · rcases h1 with ⟨hm, -⟩ | ⟨-, hm, -⟩
      · rw [← hm, ← h, hf]
      · rw [h, hm] at hf
        exact absurd hf (by decide)
    · rw [h] at hf
      exact absurd hf (by decide)
  · intro stop1 s
    cases stop1 <;> rfl
  · intro sent stop2 s h
    rcases client_write_state sent stop2 s with h1 | ⟨-, h1⟩ | h1
    · rw [← h1, h]
    · rw [h1] at h
      exact absurd h (by decide)
    · rw [h1] at h
      exact absurd h (by decide)
  · intro r s h
    rcases client_read_state_cases e r s with h1 | ⟨h1, -⟩
    · exact Or.inl (h1 ▸ h)
    · exact Or.inr h1
  · intro sent s h
    rcases server_write_state sent s with ⟨-, h1⟩ | ⟨-, -, h1⟩
    · rw [← h1, h]
    · rw [h1] at h
      exact absurd h (by decide)
  · intro envs cmd0 recv0 remote0 r_len0 s2 hrun hw
    have h := (hinit envs cmd0 recv0 remote0 r_len0).2
    rw [hrun] at h
    rcases h hw with h | h
    · exact h
    · exact absurd h (server_loop_running_not_dying e envs _ s2 hrun)

/-- Instance of `client_nothing_after_stop`: a little-endian client sends its
`START`, then sees the flag set, queues the `STOP` and sends it in the
following pass. -/
theorem client_nothing_after_stop_witness :
    never_reset (stop_reads
        [ { stop1 := false, sel := .ok false true, sent := 24, stop2 := false, rcv := .fail },
          { stop1 := true, sel := .ok false true, sent := 24, stop2 := true, rcv := .fail },
          { stop1 := true, sel := .ok false true, sent := 24, stop2 := true, rcv := .fail } ])
      ∧ sent_bufs ([] : List Call) = []
      ∧ ((∃ s2, ctrl_client_loop .little
            [ { stop1 := false, sel := .ok false true, sent := 24, stop2 := false, rcv := .fail },
              { stop1 := true, sel := .ok false true, sent := 24, stop2 := true, rcv := .fail },
              { stop1 := true, sel := .ok false true, sent := 24, stop2 := true, rcv := .fail } ]
            (ctrl_client_init .little 4 []) = .exited s2)
          ∨ (ctrl_client_loop .little
            [ { stop1 := false, sel := .ok false true, sent := 24, stop2 := false, rcv := .fail },
              { stop1 := true, sel := .ok false true, sent := 24, stop2 := true, rcv := .fail },
              { stop1 := true, sel := .ok false true, sent := 24, stop2 := true, rcv := .fail } ]
            (ctrl_client_init .little 4 [])).vars.state = STATE_DYING) :=
  ⟨by unfold never_reset; decide,
    (client_nothing_after_stop .little 4 []
      [ { stop1 := false, sel := .ok false true, sent := 24, stop2 := false, rcv := .fail },
        { stop1 := true, sel := .ok false true, sent := 24, stop2 := true, rcv := .fail },
        { stop1 := true, sel := .ok false true, sent := 24, stop2 := true, rcv := .fail } ]
      (by unfold never_reset; decide)).1
      [Call.select true, Call.send (wire_msg CMD_START 4) 24, Call.select false, Call.select true]
      [] (wire_msg CMD_STOP 0) 24 (by decide) (by decide)⟩

/-- Instance of `server_silent_until_start`: two passes in which the socket
is reported readable and writable, the first reading a 10-byte datagram, the
second nothing; no `START` was read, so nothing is sent. -/
theorem server_silent_until_start_instance :
    sent_bufs (ctrl_server_loop .little
        [ { sel := .ok true true, stop := false, sent := 24,
            rcv := .dgram (List.replicate 10 0) 77 16 },
          { sel := .ok true true, stop := false, sent := 24, rcv := .fail } ]
        (ctrl_server_init (List.replicate 24 0) (List.replicate 24 0) 0 0)).vars.trace = [] :=
  (server_silent_until_start .little (List.replicate 24 0) (List.replicate 24 0) 0 0
      [ { sel := .ok true true, stop := false, sent := 24,
          rcv := .dgram (List.replicate 10 0) 77 16 },
        { sel := .ok true true, stop := false, sent := 24, rcv := .fail } ]).1
    (by
      intro env henv wr _
      simp only [List.mem_cons, List.mem_singleton, List.mem_nil_iff, or_false] at henv
      rcases henv with rfl | rfl
      · rintro ⟨q, src, l, h, hlen, -⟩
        simp only [RecvEvent.dgram.injEq] at h
        rw [← h.1] at hlen
        exact absurd hlen (by decide)
      · rintro ⟨q, src, l, h, -⟩
        cases h)

end Nio
